import Mathlib

/-!
# The repository index service (`registry/index`, `registry/handlers`)

A shallow embedding of `registry/index/index.go` and of the two handlers of
`registry/handlers/index.go`.

The service keeps one SQLite table, `repositories`, behind a `*sql.DB`.  The
table is embedded as the list of its rows in the order a table scan visits
them; every SQL statement the Go code issues is embedded as the list function
it denotes.  What the database driver answers to a statement (success, or an
error from `Prepare` / `Exec` / `Query`) and what `time.Now()` reads are inputs
of the embedding: they are carried by a `Reply`, one for every statement that
is issued.

Scope of the embedding.  Rowids stay below the largest one, 2^63-1, from where
on SQLite draws them at random; a statement that fails changes nothing.  Go's
`int` has 64 bits; the fields `Skip` and `Limit`, on which the code does no
arithmetic, range over all integers.
-/

set_option linter.dupNamespace false

namespace Index

/-! ## Data model -/

/-- Instants as read by `time.Now()` and stored in `updated_at`. -/
abbrev Time := Nat

/-- Go `error` values met by this code.  `ErrNoRows` is the sentinel
`sql.ErrNoRows`; every other error is told apart by its message only. -/
inductive Error where
  | ErrNoRows
  | other (msg : String)
  deriving DecidableEq, Repr

/-- The method `Error()` of an error value. -/
def Error.Error : Error → String
  | .ErrNoRows => "sql: no rows in result set"
  | .other msg => msg

/-- One row of table `repositories` (index.go, lines 56-62).  No column is
declared `not null`, so each data column either holds a value or is NULL
(`none`). -/
structure Row where
  id : Int
  repository : Option String
  digest : Option String
  url : Option String
  updated_at : Option Time
  deriving DecidableEq, Repr

/-- The table `repositories`, its rows in scan order. -/
abbrev Table := List Row

/-- The Go struct `Record` (index.go, lines 18-23). -/
structure Record where
  Repository : String
  Digest : String
  Url : String
  UpdatedAt : Time
  deriving DecidableEq, Repr

/-- The Go struct `QueryArgs` (index.go, lines 25-29). -/
structure QueryArgs where
  Keyword : String
  Skip : Int
  Limit : Int
  deriving DecidableEq, Repr

/-- The fields of `notifications.Event.Target` that the service reads. -/
structure Target where
  MediaType : String
  Repository : String
  Digest : String
  URL : String
  deriving DecidableEq, Repr

/-- The fields of `notifications.Event` that the service reads. -/
structure Event where
  Action : String
  Target : Target
  deriving DecidableEq, Repr

/-- Modelled from the spec: the constant `manifest.ManifestMediaType`, declared
in package `manifest` outside the files at hand; it is the media type that
"identifies a top-level manifest". -/
def ManifestMediaType : String := "application/vnd.docker.distribution.manifest.v1+json"

/-- Modelled from the spec: the constant `notifications.EventActionDelete`,
declared in package `notifications` outside the files at hand; it is the
action of a `delete` event. -/
def EventActionDelete : String := "delete"

/-- The constant `defaultLimit` (index.go, line 15). -/
def defaultLimit : Int := 20

/-! ## The database driver as an input -/

/-- What the driver answers to one statement: it executes it, or it fails in
`Prepare`, or it fails in `Exec` (in `Query`, for a `select`). -/
inductive Outcome where
  | ok
  | prepareFailed (err : Error)
  | execFailed (err : Error)
  deriving DecidableEq, Repr

/-- The environment of one statement: the driver's answer and the reading of
`time.Now()`. -/
structure Reply where
  outcome : Outcome
  now : Time
  deriving DecidableEq, Repr

/-- The replies to the statements still to be issued, the next one at 0. -/
abbrev Driver := Nat → Reply

/-- The driver after one statement has been answered. -/
def Driver.next (env : Driver) : Driver := fun i => env (i + 1)

/-! ## SQL statements of the service -/

/-- Statement `delete from repositories where repository=?`: the rows whose
`repository` equals the argument go, NULL never equals it. -/
def sqlDelete (t : Table) (repository : String) : Table :=
  t.filter (fun r => !decide (r.repository = some repository))

/-- The rowid SQLite gives a row inserted without one: one more than the
largest in the table, 1 in an empty table. -/
def newRowid (t : Table) : Int :=
  match t with
  | [] => 1
  | r :: rest => rest.foldl (fun m x => max m x.id) r.id + 1

/-- Statement `replace into repositories(repository, digest, url, updated_at)
values(?,?,?,?)`: the rows in conflict with the new one on the unique index
`idx_name` (set up by `New`, index.go, line 63) go, then the new row is
inserted, with the rowid taken before they went. -/
def sqlReplace (t : Table) (repository digest url : String) (updated_at : Time) : Table :=
  sqlDelete t repository ++
    [{ id := newRowid t, repository := some repository, digest := some digest,
       url := some url, updated_at := some updated_at }]

/-! ## The event projector -/

/-- Method `IndexService.delete` (index.go, lines 91-100).  A statement the
driver fails leaves the table as it was. -/
def delete (reply : Reply) (t : Table) (event : Event) : Table × Option Error :=
  match reply.outcome with
  | .prepareFailed err => (t, some err)
  | .execFailed err => (t, some err)
  | .ok => (sqlDelete t event.Target.Repository, none)

/-- Method `IndexService.add` (index.go, lines 102-117).  `time.Now()` is read
once the statement is prepared; a statement the driver fails leaves the table
as it was. -/
def add (reply : Reply) (t : Table) (event : Event) : Table × Option Error :=
  match reply.outcome with
  | .prepareFailed err => (t, some err)
  | .execFailed err => (t, some err)
  | .ok =>
    let target := event.Target
    (sqlReplace t target.Repository target.Digest target.URL reply.now, none)

/-- Method `IndexService.Write` (index.go, lines 74-89).  Only a manifest event
issues a statement, and so only a manifest event uses up a reply. -/
def Write (env : Driver) (t : Table) : List Event → Table × Option Error
  | [] => (t, none)
  | event :: events =>
    if event.Target.MediaType = ManifestMediaType then
      if event.Action = EventActionDelete then
        match delete (env 0) t event with
        | (t', some err) => (t', some err)
        | (t', none) => Write env.next t' events
      else
        match add (env 0) t event with
        | (t', some err) => (t', some err)
        | (t', none) => Write env.next t' events
    else
      Write env t events

/-! ### Reference semantics of a batch

What a batch does to the table when its events take effect one after the
other, told without the early return of `Write`. -/

/-- The error in a driver's answer, if it is one. -/
def Outcome.error : Outcome → Option Error
  | .ok => none
  | .prepareFailed err => some err
  | .execFailed err => some err

/-- Is the event one of those `Write` processes? -/
def Event.isManifest (event : Event) : Bool :=
  decide (event.Target.MediaType = ManifestMediaType)

/-- The effect of one event on the table when its statement is executed at
instant `now`: a delete event removes the row of its repository, any other
manifest event replaces it, and an event of another media type does nothing. -/
def effect (now : Time) (t : Table) (event : Event) : Table :=
  if event.isManifest then
    if event.Action = EventActionDelete then sqlDelete t event.Target.Repository
    else sqlReplace t event.Target.Repository event.Target.Digest event.Target.URL now
  else t

/-- The driver left for the events after `event`. -/
def Driver.after (env : Driver) (event : Event) : Driver :=
  if event.isManifest then env.next else env

/-- The table after every event of the list has taken effect, in order. -/
def effects (env : Driver) (t : Table) : List Event → Table
  | [] => t
  | event :: events => effects (env.after event) (effect (env 0).now t event) events

/-- The error that applying the event at position `i` of the batch meets: the
one in the driver's answer to its statement, none for an event that issues no
statement. -/
def errorAt (env : Driver) : List Event → Nat → Option Error
  | [], _ => none
  | event :: _, 0 => if event.isManifest then (env 0).outcome.error else none
  | event :: events, i + 1 => errorAt (env.after event) events i

/-- The table after a sequence of calls of `Write`, each with the answers the
driver gives during it. -/
def writes (t : Table) : List (Driver × List Event) → Table
  | [] => t
  | (env, events) :: calls => writes (Write env t events).1 calls

/-- The unique index `idx_name`, as far as named repositories go: at most one
row for each repository name. -/
def AtMostOnePerRepository (t : Table) : Prop :=
  ∀ name : String, (t.filter (fun r => decide (r.repository = some name))).length ≤ 1

/-! ## The query builder -/

/-- What the driver answers to a query: it runs it and delivers every row it
selects, or it fails in `Prepare`, or it fails in `Query`, or `rows.Next()`
stops on an error of the store once `delivered` rows have come. -/
inductive QueryOutcome where
  | ok
  | prepareFailed (err : Error)
  | queryFailed (err : Error)
  | stepFailed (delivered : Nat) (err : Error)
  deriving DecidableEq, Repr

/-- Method `QueryArgs.prepare` (index.go, lines 31-38). -/
def QueryArgs.prepare (self : QueryArgs) : QueryArgs :=
  let self := if self.Skip < 0 then { self with Skip := 0 } else self
  if self.Limit < 1 then { self with Limit := defaultLimit } else self

/-- How SQLite's `like` compares a pattern character that is no wildcard with
a character of the text: equal, or both ASCII and equal once lower-cased. -/
def likeChar (c d : Char) : Bool :=
  c == d || (c.toLower == d.toLower && decide (c.toNat < 128) && decide (d.toNat < 128))

/-- Does `f` accept the text or one of its suffixes (what `%` may skip)? -/
def likeAnywhere (f : List Char → Bool) : List Char → Bool
  | [] => f []
  | c :: s => f (c :: s) || likeAnywhere f s

/-- The comparison of SQLite's operator `text like pattern`, without an escape
character, on a pattern and a text as it reads them: `%` stands for any run of
characters, `_` for any one character, any other character for itself up to
the case of ASCII letters. -/
def like : List Char → List Char → Bool
  | [], s => s.isEmpty
  | c :: p, s =>
    if c = '%' then likeAnywhere (like p) s
    else
      match s with
      | [] => false
      | d :: s' => (c == '_' || likeChar c d) && like p s'

/-- The statement `GetPage` assembles, with its arguments: `pattern` is the
argument of the clause `where repository like ?` when that clause is there. -/
structure Query where
  pattern : Option String
  limit : Int
  offset : Int
  deriving DecidableEq, Repr

/-- A text as SQLite's `like` reads it: up to its first NUL character. -/
def cstr (s : List Char) : List Char :=
  s.takeWhile (fun c => c != Char.ofNat 0)

/-- SQLite's bound on the length in bytes of a `like` pattern
(`SQLITE_MAX_LIKE_PATTERN_LENGTH`). -/
def likePatternLimit : Nat := 50000

/-- The rows that come through the `where` clause of a query, in scan order.
`like` reads pattern and text up to their first NUL, and `like` on a NULL is
NULL, which keeps no row.  On a pattern of more bytes than the bound `like`
raises an error at the first row: stepping stops there and no row comes
through. -/
def sqlWhere (t : Table) : Option String → List Row
  | none => t
  | some pattern =>
    if pattern.utf8ByteSize > likePatternLimit then []
    else
      t.filter fun r =>
        match r.repository with
        | none => false
        | some s => like (cstr pattern.toList) (cstr s.toList)

/-- The clause `limit ? offset ?`: a negative offset skips nothing, a negative
limit bounds nothing. -/
def sqlLimitOffset (limit offset : Int) (rows : List Row) : List Row :=
  let rest := rows.drop offset.toNat
  if limit < 0 then rest else rest.take limit.toNat

/-- Statement `select repository, digest, url, updated_at from repositories
[where repository like ?] limit ? offset ?`: the rows `rows.Next()` delivers
when the store steps through the statement to its end. -/
def sqlSelect (t : Table) (q : Query) : List Row :=
  sqlLimitOffset q.limit q.offset (sqlWhere t q.pattern)

/-- The call `rows.Scan(&record.Repository, &record.Digest, &record.Url,
&record.UpdatedAt)` (index.go, line 159): it fails on a NULL. -/
def scan (r : Row) : Option Record :=
  match r.repository, r.digest, r.url, r.updated_at with
  | some repository, some digest, some url, some updatedAt =>
    some { Repository := repository, Digest := digest, Url := url, UpdatedAt := updatedAt }
  | _, _, _, _ => none

/-- The statement and arguments `GetPage` hands to the driver (index.go, lines
130-149). -/
def buildQuery (args : QueryArgs) : Query :=
  let args := args.prepare
  if args.Keyword.length > 0 then
    { pattern := some ("%" ++ args.Keyword ++ "%"), limit := args.Limit, offset := args.Skip }
  else
    { pattern := none, limit := args.Limit, offset := args.Skip }

/-- Method `IndexService.GetPage` (index.go, lines 129-167).  The first
component is the slice returned, `none` for the nil slice.  The loop ends when
`rows.Next()` is false and the code never reads `rows.Err()`: when stepping
stops on an error, the records read so far are returned with a nil error. -/
def GetPage (outcome : QueryOutcome) (t : Table) (args : QueryArgs) :
    Option (List Record) × Option Error :=
  match outcome with
  | .prepareFailed err => (none, some err)
  | .queryFailed err => (none, some err)
  | .stepFailed delivered _ =>
    (some (((sqlSelect t (buildQuery args)).take delivered).filterMap scan), none)
  | .ok => (some ((sqlSelect t (buildQuery args)).filterMap scan), none)

end Index

/-! ## Library functions the handlers call -/

namespace strconv

/-- The two causes `strconv` reports in a `NumError`. -/
inductive NumError where
  | ErrSyntax
  | ErrRange
  deriving DecidableEq, Repr

/-- The size of Go's `int` in bits. -/
def IntSize : Nat := 64

/-- The loop of `strconv.ParseUint(s, 10, 0)`: `n` is the value of the digits
read so far; the first character that is no digit ends it with a syntax error
and the first digit that overflows with a range error. -/
def parseUintLoop : Nat → List Char → Nat × Option NumError
  | n, [] => (n, none)
  | n, d :: s =>
    if '0' ≤ d ∧ d ≤ '9' then
      let v := d.toNat - '0'.toNat
      let cutoff := (2 ^ 64 - 1) / 10 + 1
      let maxVal := 2 ^ IntSize - 1
      if n ≥ cutoff then (2 ^ 64 - 1, some .ErrRange)
      else
        let n1 := (n * 10 + v) % 2 ^ 64
        if n1 < n * 10 ∨ n1 > maxVal then (2 ^ 64 - 1, some .ErrRange)
        else parseUintLoop n1 s
    else (0, some .ErrSyntax)

/-- Function `strconv.ParseUint(s, 10, 0)`. -/
def ParseUint (s : List Char) : Nat × Option NumError :=
  if s.length < 1 then (0, some .ErrSyntax) else parseUintLoop 0 s

/-- The second half of `strconv.ParseInt(s, 10, 0)`: what it makes of the
result of `ParseUint` on the digits, `neg` telling a leading minus sign. -/
def signedOf (neg : Bool) : Nat × Option NumError → Int × Option NumError
  | (_, some .ErrSyntax) => (0, some .ErrSyntax)
  | (un, _) =>
    let cutoff : Nat := 2 ^ (IntSize - 1)
    if !neg && decide (un ≥ cutoff) then ((cutoff : Int) - 1, some .ErrRange)
    else if neg && decide (un > cutoff) then (-(cutoff : Int), some .ErrRange)
    else (if neg then -(un : Int) else (un : Int), none)

/-- Function `strconv.ParseInt(s, 10, 0)`. -/
def ParseInt (s : List Char) : Int × Option NumError :=
  match s with
  | [] => (0, some .ErrSyntax)
  | c :: rest =>
    signedOf (decide (c = '-')) (ParseUint (if c = '+' ∨ c = '-' then rest else s))

/-- Function `strconv.Atoi`. -/
def Atoi (s : String) : Int × Option NumError :=
  ParseInt s.toList

end strconv

/-- The type `url.Values` of `r.Form`: the values given for each key. -/
abbrev Values := List (String × List String)

/-- Method `url.Values.Get`: the first value of the key, the empty string when
the key has none. -/
def Values.Get (v : Values) (key : String) : String :=
  match v.lookup key with
  | some (x :: _) => x
  | _ => ""

/-- What a handler has done to its `http.ResponseWriter`: the header fields
set, the calls of `WriteHeader` in order, and the bytes written. -/
structure ResponseWriter where
  header : List (String × String)
  status : List Nat
  body : String
  deriving DecidableEq, Repr

/-- A response writer nothing has been done to. -/
def ResponseWriter.new : ResponseWriter := { header := [], status := [], body := "" }

/-- Method `http.Header.Set`. -/
def ResponseWriter.setHeader (w : ResponseWriter) (key value : String) : ResponseWriter :=
  { w with header := (key, value) :: w.header.filter (fun kv => kv.1 != key) }

/-- Method `http.ResponseWriter.WriteHeader`. -/
def ResponseWriter.WriteHeader (w : ResponseWriter) (code : Nat) : ResponseWriter :=
  { w with status := w.status ++ [code] }

/-- Method `http.ResponseWriter.Write`. -/
def ResponseWriter.Write (w : ResponseWriter) (bytes : String) : ResponseWriter :=
  { w with body := w.body ++ bytes }

namespace http

/-- Function `http.Error`. -/
def Error (w : ResponseWriter) (error : String) (code : Nat) : ResponseWriter :=
  let w := w.setHeader "Content-Type" "text/plain; charset=utf-8"
  let w := w.setHeader "X-Content-Type-Options" "nosniff"
  let w := w.WriteHeader code
  w.Write (error ++ "\n")

end http

/-! ## The HTTP handlers -/

namespace indexHandler

/-- The `index.QueryArgs` that handler `GetPage` builds from the form of the
request (handlers/index.go, lines 34-41). -/
def queryArgs (form : Values) : Index.QueryArgs :=
  let skip := (strconv.Atoi (form.Get "skip")).1
  let limit := (strconv.Atoi (form.Get "limit")).1
  let keyword := form.Get "keyword"
  { Keyword := keyword, Skip := skip, Limit := limit }

/-- Method `indexHandler.GetPage` (handlers/index.go, lines 31-53; the comment
above it in the source still names it `GetTags`).  `encode` is the JSON
encoder; the second component lists the errors pushed to `ih.Errors`. -/
def GetPage (encode : List Index.Record → Except Index.Error String)
    (outcome : Index.QueryOutcome) (t : Index.Table) (w : ResponseWriter) (form : Values) :
    ResponseWriter × List Index.Error :=
  let w := w.setHeader "Content-Type" "application/json; charset=utf-8"
  match Index.GetPage outcome t (queryArgs form) with
  | (_, some err) => (w, [err])
  | (page, none) =>
    match encode (page.getD []) with
    | .ok bytes => (w.Write bytes, [])
    | .error err => (w, [err])

/-- Method `indexHandler.SetTagStatus` (handlers/index.go, lines 55-72).
`Decode` is the JSON decoder applied to the body, giving the Go map as a
lookup function; `SetTagStatus` is the Status Updater `ih.index.SetTagStatus`.
The second component lists the calls of the Status Updater. -/
def SetTagStatus (Decode : String → Except Index.Error (String → Option String))
    (SetTagStatus : String → String → String → Option Index.Error)
    (w : ResponseWriter) (body : String) : ResponseWriter × List (String × String × String) :=
  match Decode body with
  | .error err => (http.Error w err.Error 400, [])
  | .ok req =>
    let get := fun key => (req key).getD ""
    let calls := [(get "repo", get "tag", get "status")]
    match SetTagStatus (get "repo") (get "tag") (get "status") with
    | some err =>
      if err = Index.Error.ErrNoRows then (http.Error w err.Error 404, calls)
      else (http.Error w err.Error 500, calls)
    | none => (w.WriteHeader 204, calls)

end indexHandler


/-! ### Reference notions for the keyword filter and the pages -/

namespace Index

/-- The keyword has no character that `like` reads as a wildcard. -/
def WildcardFree (keyword : String) : Prop :=
  ∀ c ∈ keyword.toList, c ≠ '%' ∧ c ≠ '_'

instance (keyword : String) : Decidable (WildcardFree keyword) := by
  unfold WildcardFree
  infer_instance

/-- The text has the keyword as a substring. -/
def Contains (keyword text : String) : Prop :=
  List.IsInfix keyword.toList text.toList

instance (keyword text : String) : Decidable (Contains keyword text) := by
  unfold Contains
  infer_instance

/-- The text has the keyword as a substring, up to the case of ASCII letters:
the keyword is a substring of the text once the ASCII capitals of both are
made small (`Char.toLower` changes the letters `A` to `Z` only). -/
def ContainsUpToCase (keyword text : String) : Prop :=
  List.IsInfix (keyword.toList.map Char.toLower) (text.toList.map Char.toLower)

instance (keyword text : String) : Decidable (ContainsUpToCase keyword text) := by
  unfold ContainsUpToCase
  infer_instance

/-- The text has no NUL character. -/
def NulFree (text : String) : Prop :=
  ∀ c ∈ text.toList, c ≠ Char.ofNat 0

instance (text : String) : Decidable (NulFree text) := by
  unfold NulFree
  infer_instance

/-- Does the keyword select the row?  The empty keyword selects every row; any
other keyword selects the rows whose repository is `like` the keyword between
two `%`. -/
def Selects (keyword : String) (r : Row) : Bool :=
  keyword == "" ||
    match r.repository with
    | none => false
    | some name => like (cstr ("%" ++ keyword ++ "%").toList) (cstr name.toList)

/-- The rows a keyword selects, in scan order. -/
def matching (t : Table) (keyword : String) : List Row :=
  t.filter (Selects keyword)

/-- Every row of the table decodes. -/
def Decodable (t : Table) : Prop :=
  ∀ r ∈ t, (scan r).isSome = true

instance (t : Table) : Decidable (Decodable t) := by
  unfold Decodable
  infer_instance

/-- The records of the rows a keyword selects, in scan order. -/
def matchingRecords (t : Table) (keyword : String) : List Record :=
  (matching t keyword).filterMap scan

end Index

/-! ## Sample data -/

namespace Index

/-- A driver that executes every statement, at instant `now`. -/
def steady (now : Time) : Driver := fun _ => { outcome := .ok, now := now }

/-- A driver that fails the statement numbered `k` in `Exec` and executes the
others, at instant `now`. -/
def failingAt (k : Nat) (err : Error) (now : Time) : Driver := fun i =>
  if i = k then { outcome := .execFailed err, now := now } else { outcome := .ok, now := now }

/-- A push of the manifest of repository `name`. -/
def pushOf (name digest url : String) : Event :=
  { Action := "push",
    Target := { MediaType := ManifestMediaType, Repository := name, Digest := digest, URL := url } }

/-- The deletion of the manifest of repository `name`. -/
def deleteOf (name : String) : Event :=
  { Action := EventActionDelete,
    Target := { MediaType := ManifestMediaType, Repository := name, Digest := "", URL := "" } }

/-- A push of a layer of repository `name`: no manifest event. -/
def layerOf (name digest url : String) : Event :=
  { Action := "push",
    Target := { MediaType := "application/vnd.docker.container.image.rootfs.diff+x-gtar",
                Repository := name, Digest := digest, URL := url } }

/-- The rows of `alpha/one`, `alpha/two` and `beta/one`. -/
def alphaBeta : Table :=
  [{ id := 1, repository := some "alpha/one", digest := some "sha256:01",
     url := some "http://x/alpha/one", updated_at := some 1 },
   { id := 2, repository := some "alpha/two", digest := some "sha256:02",
     url := some "http://x/alpha/two", updated_at := some 2 },
   { id := 3, repository := some "beta/one", digest := some "sha256:03",
     url := some "http://x/beta/one", updated_at := some 3 }]

/-- A keyword of 49999 bytes: between two `%` it is one byte over the bound on
a `like` pattern. -/
def longKeyword : String := String.mk (List.replicate 49999 'a')

/-- A keyword that is one NUL character. -/
def nulKeyword : String := String.mk [Char.ofNat 0]

/-- A row with every column set. -/
def rowOf (id : Int) (name digest url : String) (updatedAt : Time) : Row :=
  { id := id, repository := some name, digest := some digest, url := some url,
    updated_at := some updatedAt }

/-- A table of two repositories. -/
def twoRows : Table :=
  [rowOf 1 "r1" "sha256:00" "http://x/old" 5, rowOf 2 "r2" "sha256:bb" "http://x/r2" 6]

end Index

/-! ## Properties of the event projector -/

namespace Index

theorem delete_ok (reply : Reply) (t : Table) (event : Event) (h : reply.outcome = .ok) :
    delete reply t event = (sqlDelete t event.Target.Repository, none) := by
  simp [delete, h]

theorem add_ok (reply : Reply) (t : Table) (event : Event) (h : reply.outcome = .ok) :
    add reply t event =
      (sqlReplace t event.Target.Repository event.Target.Digest event.Target.URL reply.now,
        none) := by
  simp [add, h]

theorem delete_error (reply : Reply) (t : Table) (event : Event) (err : Error)
    (h : reply.outcome.error = some err) : delete reply t event = (t, some err) := by
  cases ho : reply.outcome <;> simp_all [delete, Outcome.error]

theorem add_error (reply : Reply) (t : Table) (event : Event) (err : Error)
    (h : reply.outcome.error = some err) : add reply t event = (t, some err) := by
  cases ho : reply.outcome <;> simp_all [add, Outcome.error]

theorem Outcome.error_eq_none {o : Outcome} : o.error = none ↔ o = .ok := by
  cases o <;> simp [Outcome.error]

/-- One turn of the loop of `Write` on an event that is not a manifest event. -/
theorem Write_cons_skip (env : Driver) (t : Table) (event : Event) (events : List Event)
    (h : event.isManifest = false) : Write env t (event :: events) = Write env t events := by
  have h' : event.Target.MediaType ≠ ManifestMediaType := by
    simpa [Event.isManifest] using h
  simp [Write, h']

/-- One turn of the loop of `Write` on a manifest event the driver executes. -/
theorem Write_cons_ok (env : Driver) (t : Table) (event : Event) (events : List Event)
    (hm : event.isManifest = true) (ho : (env 0).outcome = .ok) :
    Write env t (event :: events) = Write env.next (effect (env 0).now t event) events := by
  have hm' : event.Target.MediaType = ManifestMediaType := by
    simpa [Event.isManifest] using hm
  by_cases hd : event.Action = EventActionDelete
  · simp [Write, hm', hd, delete_ok _ _ _ ho, effect, hm]
  · simp [Write, hm', hd, add_ok _ _ _ ho, effect, hm]

/-- One turn of the loop of `Write` on a manifest event the driver fails. -/
theorem Write_cons_error (env : Driver) (t : Table) (event : Event) (events : List Event)
    (err : Error) (hm : event.isManifest = true) (ho : (env 0).outcome.error = some err) :
    Write env t (event :: events) = (t, some err) := by
  have hm' : event.Target.MediaType = ManifestMediaType := by
    simpa [Event.isManifest] using hm
  by_cases hd : event.Action = EventActionDelete
  · simp [Write, hm', hd, delete_error _ _ _ _ ho]
  · simp [Write, hm', hd, add_error _ _ _ _ ho]

theorem Driver.after_of_isManifest (env : Driver) (event : Event)
    (h : event.isManifest = true) : env.after event = env.next := by
  simp [Driver.after, h]

theorem Driver.after_of_not_isManifest (env : Driver) (event : Event)
    (h : event.isManifest = false) : env.after event = env := by
  simp [Driver.after, h]

theorem effect_of_not_isManifest (now : Time) (t : Table) (event : Event)
    (h : event.isManifest = false) : effect now t event = t := by
  simp [effect, h]

/-- A batch changes the table as its manifest events alone do. -/
theorem Write_filter_isManifest (env : Driver) (t : Table) (events : List Event) :
    Write env t events = Write env t (events.filter Event.isManifest) := by
  induction events generalizing env t with
  | nil => rfl
  | cons event events ih =>
    cases hm : event.isManifest with
    | false => rw [Write_cons_skip _ _ _ _ hm, List.filter_cons_of_neg (by simp [hm]), ih]
    | true =>
      rw [List.filter_cons_of_pos (by simp [hm])]
      cases ho : (env 0).outcome.error with
      | none =>
        have hok := Outcome.error_eq_none.mp ho
        rw [Write_cons_ok _ _ _ _ hm hok, Write_cons_ok _ _ _ _ hm hok, ih]
      | some err => rw [Write_cons_error _ _ _ _ err hm ho, Write_cons_error _ _ _ _ err hm ho]

/-- A batch none of whose events fails takes effect whole. -/
theorem Write_of_no_error (env : Driver) (t : Table) (events : List Event)
    (h : ∀ j, j < events.length → errorAt env events j = none) :
    Write env t events = (effects env t events, none) := by
  induction events generalizing env t with
  | nil => rfl
  | cons event events ih =>
    have h0 := h 0 (by simp)
    have hrest : ∀ j, j < events.length → errorAt (env.after event) events j = none := by
      intro j hj
      simpa [errorAt] using h (j + 1) (by simpa using hj)
    cases hm : event.isManifest with
    | false =>
      rw [Write_cons_skip _ _ _ _ hm, effects, effect_of_not_isManifest _ _ _ hm]
      rw [Driver.after_of_not_isManifest _ _ hm] at hrest ⊢
      exact ih env t hrest
    | true =>
      have hok : (env 0).outcome = .ok := by
        apply Outcome.error_eq_none.mp
        simpa [errorAt, hm] using h0
      rw [Write_cons_ok _ _ _ _ hm hok, effects]
      rw [Driver.after_of_isManifest _ _ hm] at hrest ⊢
      exact ih _ _ hrest

/-- A batch whose first failing event is at position `i` returns that event's
error and leaves the table as the events before `i` made it. -/
theorem Write_of_first_error (env : Driver) (t : Table) (events : List Event) (i : Nat)
    (err : Error) (hbefore : ∀ j, j < i → errorAt env events j = none)
    (hat : errorAt env events i = some err) :
    Write env t events = (effects env t (events.take i), some err) := by
  induction events generalizing env t i with
  | nil => simp [errorAt] at hat
  | cons event events ih =>
    cases i with
    | zero =>
      cases hm : event.isManifest with
      | false => simp [errorAt, hm] at hat
      | true =>
        have ho : (env 0).outcome.error = some err := by simpa [errorAt, hm] using hat
        rw [Write_cons_error _ _ _ _ err hm ho]
        simp [effects]
    | succ i =>
      have h0 := hbefore 0 (by simp)
      have hrest : ∀ j, j < i → errorAt (env.after event) events j = none := by
        intro j hj
        simpa [errorAt] using hbefore (j + 1) (by omega)
      have hat' : errorAt (env.after event) events i = some err := by
        simpa [errorAt] using hat
      rw [List.take_succ_cons, effects]
      cases hm : event.isManifest with
      | false =>
        rw [Write_cons_skip _ _ _ _ hm, effect_of_not_isManifest _ _ _ hm]
        rw [Driver.after_of_not_isManifest _ _ hm] at hrest hat' ⊢
        exact ih _ _ _ hrest hat'
      | true =>
        have hok : (env 0).outcome = .ok := by
          apply Outcome.error_eq_none.mp
          simpa [errorAt, hm] using h0
        rw [Write_cons_ok _ _ _ _ hm hok]
        rw [Driver.after_of_isManifest _ _ hm] at hrest hat' ⊢
        exact ih _ _ _ hrest hat'

theorem errorAt_take (env : Driver) (events : List Event) (i j : Nat) (h : j < i) :
    errorAt env (events.take i) j = errorAt env events j := by
  induction events generalizing env i j with
  | nil => simp [errorAt]
  | cons event events ih =>
    cases i with
    | zero => omega
    | succ i =>
      cases j with
      | zero => simp [errorAt]
      | succ j => simpa [errorAt] using ih _ i j (by omega)

theorem effect_isManifest (now : Time) (t : Table) (event : Event)
    (h : event.isManifest = true) :
    effect now t event =
      if event.Action = EventActionDelete then sqlDelete t event.Target.Repository
      else sqlReplace t event.Target.Repository event.Target.Digest event.Target.URL now := by
  simp [effect, h]

/-- A property of the table that both statements of the projector keep is kept
by `Write`, whatever the driver answers. -/
theorem Write_preserves (P : Table → Prop)
    (hdelete : ∀ t name, P t → P (sqlDelete t name))
    (hreplace : ∀ t name digest url now, P t → P (sqlReplace t name digest url now))
    (env : Driver) (t : Table) (events : List Event) (h : P t) : P (Write env t events).1 := by
  induction events generalizing env t with
  | nil => exact h
  | cons event events ih =>
    cases hm : event.isManifest with
    | false => rw [Write_cons_skip _ _ _ _ hm]; exact ih _ _ h
    | true =>
      cases ho : (env 0).outcome.error with
      | some err => rw [Write_cons_error _ _ _ _ err hm ho]; exact h
      | none =>
        rw [Write_cons_ok _ _ _ _ hm (Outcome.error_eq_none.mp ho)]
        apply ih
        rw [effect_isManifest _ _ _ hm]
        split
        · exact hdelete _ _ h
        · exact hreplace _ _ _ _ _ h

theorem writes_preserves (P : Table → Prop)
    (hdelete : ∀ t name, P t → P (sqlDelete t name))
    (hreplace : ∀ t name digest url now, P t → P (sqlReplace t name digest url now))
    (t : Table) (calls : List (Driver × List Event)) (h : P t) : P (writes t calls) := by
  induction calls generalizing t with
  | nil => exact h
  | cons call calls ih =>
    obtain ⟨env, events⟩ := call
    exact ih _ (Write_preserves P hdelete hreplace env t events h)

theorem mem_sqlDelete {t : Table} {name : String} {r : Row} :
    r ∈ sqlDelete t name ↔ r ∈ t ∧ r.repository ≠ some name := by
  simp [sqlDelete]

theorem sqlDelete_pairwise (t : Table) (name : String)
    (h : t.Pairwise (fun a b => a.repository ≠ b.repository)) :
    (sqlDelete t name).Pairwise (fun a b => a.repository ≠ b.repository) :=
  h.sublist (List.filter_sublist t)

theorem sqlReplace_pairwise (t : Table) (name digest url : String) (now : Time)
    (h : t.Pairwise (fun a b => a.repository ≠ b.repository)) :
    (sqlReplace t name digest url now).Pairwise (fun a b => a.repository ≠ b.repository) := by
  rw [sqlReplace, List.pairwise_append]
  refine ⟨sqlDelete_pairwise t name h, List.pairwise_singleton _ _, ?_⟩
  intro a ha b hb
  rw [List.mem_singleton] at hb
  subst hb
  exact (mem_sqlDelete.mp ha).2

/-- The rows of a repository after `replace into` has written it: the new row
alone. -/
theorem sqlReplace_filter_eq (t : Table) (name digest url : String) (now : Time) :
    (sqlReplace t name digest url now).filter (fun r => decide (r.repository = some name)) =
      [{ id := newRowid t, repository := some name, digest := some digest, url := some url,
         updated_at := some now }] := by
  have h : (sqlDelete t name).filter (fun r => decide (r.repository = some name)) = [] := by
    rw [List.filter_eq_nil_iff]
    intro r hr
    simpa using (mem_sqlDelete.mp hr).2
  simp [sqlReplace, List.filter_append, h]

/-- The rows of the other repositories are as they were after `replace into`. -/
theorem sqlReplace_filter_ne (t : Table) (name digest url : String) (now : Time) :
    (sqlReplace t name digest url now).filter (fun r => decide (r.repository ≠ some name)) =
      t.filter (fun r => decide (r.repository ≠ some name)) := by
  simp [sqlReplace, sqlDelete, List.filter_append, List.filter_filter]

theorem sqlDelete_eq_self (t : Table) (name : String)
    (h : ∀ r ∈ t, r.repository ≠ some name) : sqlDelete t name = t := by
  rw [sqlDelete, List.filter_eq_self]
  intro r hr
  simpa using h r hr

/-- Rows with pairwise different repository values number at most one for each
repository name. -/
theorem atMostOne_of_pairwise (t : Table)
    (h : t.Pairwise (fun a b => a.repository ≠ b.repository)) : AtMostOnePerRepository t := by
  intro name
  have hsub := h.sublist (List.filter_sublist (p := fun r => decide (r.repository = some name)) t)
  match hl : t.filter (fun r => decide (r.repository = some name)) with
  | [] => simp [hl]
  | [_] => simp [hl]
  | a :: b :: rest =>
    exfalso
    rw [hl] at hsub
    have ha : a ∈ t.filter (fun r => decide (r.repository = some name)) := by
      rw [hl]; simp
    have hb : b ∈ t.filter (fun r => decide (r.repository = some name)) := by
      rw [hl]; simp
    have ha' : a.repository = some name := by simpa using (List.mem_filter.mp ha).2
    have hb' : b.repository = some name := by simpa using (List.mem_filter.mp hb).2
    exact (List.rel_of_pairwise_cons hsub (List.mem_cons_self _ _)) (ha'.trans hb'.symm)

/-- A call of `Write` with one manifest event: the driver's answer decides. -/
theorem Write_singleton (env : Driver) (t : Table) (event : Event)
    (hm : event.isManifest = true) :
    Write env t [event] =
      match (env 0).outcome.error with
      | some err => (t, some err)
      | none => (effect (env 0).now t event, none) := by
  cases ho : (env 0).outcome.error with
  | some err => rw [Write_cons_error _ _ _ _ err hm ho]
  | none => rw [Write_cons_ok _ _ _ _ hm (Outcome.error_eq_none.mp ho)]; rfl

end Index

/-! ## The claims on the event projector -/

namespace Index

/-- C1 (idempotent upsert).  For every table and every manifest event `e` that
is no delete event, after `Write(e)` and again `Write(e)`, both returning no
error, the rows whose repository is that of `e` are exactly one row; it holds
the digest and the URL of `e` and the instant read during the second call; and
the rows of the other repositories are the ones of the table at the start, in
the same order.  This holds for every table, so for every table with at most
one row per repository. -/
theorem Write_twice_upserts (env1 env2 : Driver) (t : Table) (e : Event)
    (hm : e.Target.MediaType = ManifestMediaType) (hd : e.Action ≠ EventActionDelete)
    (h1 : (Write env1 t [e]).2 = none)
    (h2 : (Write env2 (Write env1 t [e]).1 [e]).2 = none) :
    ∃ row : Row,
      (Write env2 (Write env1 t [e]).1 [e]).1.filter
          (fun r => decide (r.repository = some e.Target.Repository)) = [row] ∧
      row.repository = some e.Target.Repository ∧
      row.digest = some e.Target.Digest ∧
      row.url = some e.Target.URL ∧
      row.updated_at = some (env2 0).now ∧
      (Write env2 (Write env1 t [e]).1 [e]).1.filter
          (fun r => decide (r.repository ≠ some e.Target.Repository)) =
        t.filter (fun r => decide (r.repository ≠ some e.Target.Repository)) := by
  have hm' : e.isManifest = true := by simpa [Event.isManifest] using hm
  rw [Write_singleton _ _ _ hm'] at h1
  cases ho1 : (env1 0).outcome.error with
  | some err => simp [ho1] at h1
  | none =>
    rw [Write_singleton env1 _ _ hm', ho1] at h2 ⊢
    simp only at h2 ⊢
    rw [Write_singleton _ _ _ hm'] at h2
    cases ho2 : (env2 0).outcome.error with
    | some err => simp [ho2] at h2
    | none =>
      rw [Write_singleton env2 _ _ hm', ho2]
      simp only [effect_isManifest _ _ _ hm', if_neg hd]
      refine ⟨_, sqlReplace_filter_eq _ _ _ _ _, rfl, rfl, rfl, rfl, ?_⟩
      rw [sqlReplace_filter_ne, sqlReplace_filter_ne]

/-- Witness of C1: repository `r1` of the two-row table is pushed twice, at
instants 10 and 20. -/
theorem Write_twice_upserts_witness :
    ∃ row : Row,
      (Write (steady 20) (Write (steady 10) twoRows [pushOf "r1" "sha256:aa" "http://x/r1"]).1
          [pushOf "r1" "sha256:aa" "http://x/r1"]).1.filter
          (fun r => decide (r.repository = some "r1")) = [row] ∧
      row.repository = some "r1" ∧
      row.digest = some "sha256:aa" ∧
      row.url = some "http://x/r1" ∧
      row.updated_at = some 20 ∧
      (Write (steady 20) (Write (steady 10) twoRows [pushOf "r1" "sha256:aa" "http://x/r1"]).1
          [pushOf "r1" "sha256:aa" "http://x/r1"]).1.filter
          (fun r => decide (r.repository ≠ some "r1")) =
        twoRows.filter (fun r => decide (r.repository ≠ some "r1")) :=
  Write_twice_upserts (steady 10) (steady 20) twoRows (pushOf "r1" "sha256:aa" "http://x/r1")
    (by decide) (by decide) (by decide) (by decide)

/-- C2 (uniqueness invariant).  In the table reached from the empty table by
any sequence of calls of `Write`, whatever the batches and whatever the driver
answers during them, no two rows have the same repository value, and so every
repository name has at most one row. -/
theorem writes_unique_repository (calls : List (Driver × List Event)) :
    (writes [] calls).Pairwise (fun a b => a.repository ≠ b.repository) ∧
    AtMostOnePerRepository (writes [] calls) := by
  have h : (writes [] calls).Pairwise (fun a b => a.repository ≠ b.repository) :=
    writes_preserves _ sqlDelete_pairwise sqlReplace_pairwise [] calls List.Pairwise.nil
  exact ⟨h, atMostOne_of_pairwise _ h⟩

/-- C6 (stop at the first failing event, no rollback).  For every batch: if the
event at position `i` is the first whose application fails, `Write` returns
that event's error, the table is the one the events before `i` make when they
take effect in order, and the events after `i` count for nothing (the batch cut
after position `i` gives the same result); if no event fails, `Write` returns
nil and the table is the one all events of the batch make in order. -/
theorem Write_stops_at_first_failure (env : Driver) (t : Table) (events : List Event) :
    (∀ (i : Nat) (err : Error), i < events.length →
        (∀ j, j < i → errorAt env events j = none) → errorAt env events i = some err →
        Write env t events = (effects env t (events.take i), some err) ∧
        Write env t events = Write env t (events.take (i + 1))) ∧
    ((∀ j, j < events.length → errorAt env events j = none) →
        Write env t events = (effects env t events, none)) := by
  refine ⟨?_, Write_of_no_error env t events⟩
  intro i err _ hbefore hat
  have hcut : Write env t (events.take (i + 1)) =
      (effects env t ((events.take (i + 1)).take i), some err) := by
    apply Write_of_first_error
    · intro j hj
      rw [errorAt_take _ _ _ _ (by omega)]
      exact hbefore j hj
    · rw [errorAt_take _ _ _ _ (by omega)]
      exact hat
  rw [List.take_take, Nat.min_eq_left (Nat.le_succ i)] at hcut
  exact ⟨Write_of_first_error env t events i err hbefore hat,
    (Write_of_first_error env t events i err hbefore hat).trans hcut.symm⟩

/-- Witness of C6: of a push of `r3`, a deletion of `r2` and a push of `r4`
the second fails; the push of `r3` stays, `r2` is not deleted and `r4` is not
written. -/
theorem Write_stops_at_first_failure_witness :
    Write (failingAt 1 (.other "disk I/O error") 9) twoRows
        [pushOf "r3" "sha256:cc" "http://x/r3", deleteOf "r2", pushOf "r4" "sha256:dd" "http://x/r4"] =
      ([rowOf 1 "r1" "sha256:00" "http://x/old" 5, rowOf 2 "r2" "sha256:bb" "http://x/r2" 6,
        rowOf 3 "r3" "sha256:cc" "http://x/r3" 9], some (.other "disk I/O error")) ∧
    Write (steady 9) twoRows [deleteOf "r2", pushOf "r4" "sha256:dd" "http://x/r4"] =
      ([rowOf 1 "r1" "sha256:00" "http://x/old" 5, rowOf 2 "r4" "sha256:dd" "http://x/r4" 9],
        none) :=
  ⟨((Write_stops_at_first_failure (failingAt 1 (.other "disk I/O error") 9) twoRows
      [pushOf "r3" "sha256:cc" "http://x/r3", deleteOf "r2",
        pushOf "r4" "sha256:dd" "http://x/r4"]).1 1 (.other "disk I/O error")
      (by decide) (by decide) (by decide)).1.trans (by decide),
   ((Write_stops_at_first_failure (steady 9) twoRows
      [deleteOf "r2", pushOf "r4" "sha256:dd" "http://x/r4"]).2 (by decide)).trans (by decide)⟩

/-- C7 (delete semantics).  For every table and every manifest delete event
for repository `r`: a `Write` of it that returns no error leaves no row of `r`
and leaves the rows of the other repositories as they were, in their order;
and when the table has no row of `r`, the table is unchanged and `Write`
returns just what the driver reports, so no error when the driver executes the
statement. -/
theorem Write_delete (env : Driver) (t : Table) (e : Event)
    (hm : e.Target.MediaType = ManifestMediaType) (hd : e.Action = EventActionDelete) :
    ((Write env t [e]).2 = none →
      (∀ r ∈ (Write env t [e]).1, r.repository ≠ some e.Target.Repository) ∧
      (Write env t [e]).1 =
        t.filter (fun r => decide (r.repository ≠ some e.Target.Repository))) ∧
    ((∀ r ∈ t, r.repository ≠ some e.Target.Repository) →
      (Write env t [e]).1 = t ∧
      (Write env t [e]).2 = (env 0).outcome.error ∧
      ((env 0).outcome = .ok → Write env t [e] = (t, none))) := by
  have hm' : e.isManifest = true := by simpa [Event.isManifest] using hm
  rw [Write_singleton _ _ _ hm']
  cases ho : (env 0).outcome.error with
  | some err =>
    refine ⟨by simp, fun _ => ⟨rfl, rfl, fun hok => ?_⟩⟩
    rw [Outcome.error_eq_none.mpr hok] at ho
    cases ho
  | none =>
    simp only [effect_isManifest _ _ _ hm', if_pos hd]
    refine ⟨fun _ => ⟨fun r hr => (mem_sqlDelete.mp hr).2, ?_⟩, fun habsent => ?_⟩
    · simp [sqlDelete]
    · simp [sqlDelete_eq_self _ _ habsent]

/-- Witness of C7: `r2` is deleted from the two-row table, and the deletion of
the unknown `r9` changes nothing and returns nil. -/
theorem Write_delete_witness :
    (Write (steady 9) twoRows [deleteOf "r2"]).1 = [rowOf 1 "r1" "sha256:00" "http://x/old" 5] ∧
    Write (steady 9) twoRows [deleteOf "r9"] = (twoRows, none) :=
  ⟨((Write_delete (steady 9) twoRows (deleteOf "r2") (by decide) (by decide)).1
      (by decide)).2.trans (by decide),
   ((Write_delete (steady 9) twoRows (deleteOf "r9") (by decide) (by decide)).2
      (by decide)).2.2 (by decide)⟩

/-- C8 (events of other media types are ignored).  For every table: a batch
none of whose events has the manifest media type, whatever their actions,
returns nil and leaves the table as it was; and in any batch an event of
another media type may be taken out, wherever it stands, without a change to
the table or to the error returned, so that it neither changes anything nor
stops the events after it. -/
theorem Write_ignores_other_media_types (env : Driver) (t : Table) (events : List Event) :
    ((∀ e ∈ events, e.Target.MediaType ≠ ManifestMediaType) →
      Write env t events = (t, none)) ∧
    (∀ (before after : List Event) (e : Event), events = before ++ e :: after →
      e.Target.MediaType ≠ ManifestMediaType →
      Write env t events = Write env t (before ++ after)) ∧
    Write env t events = Write env t (events.filter Event.isManifest) := by
  refine ⟨fun h => ?_, fun before after e hsplit he => ?_, Write_filter_isManifest env t events⟩
  · have hnil : events.filter Event.isManifest = [] := by
      rw [List.filter_eq_nil_iff]
      intro e he
      simpa [Event.isManifest] using h e he
    rw [Write_filter_isManifest, hnil]
    rfl
  · have he' : e.isManifest = false := by simpa [Event.isManifest] using he
    rw [hsplit, Write_filter_isManifest, Write_filter_isManifest env t (before ++ after)]
    simp [List.filter_append, List.filter_cons, he']

/-- Witness of C8: a push and a deletion of layers leave the two-row table as
it was, and a layer push between two manifest pushes changes nothing. -/
theorem Write_ignores_other_media_types_witness :
    Write (failingAt 0 .ErrNoRows 9) twoRows
        [layerOf "r1" "sha256:ee" "http://x/l", { layerOf "r2" "" "" with Action := "delete" }] =
      (twoRows, none) ∧
    Write (steady 9) [] [pushOf "a" "d1" "u1", layerOf "a" "d2" "u2", pushOf "b" "d3" "u3"] =
      Write (steady 9) [] [pushOf "a" "d1" "u1", pushOf "b" "d3" "u3"] :=
  ⟨(Write_ignores_other_media_types (failingAt 0 .ErrNoRows 9) twoRows
      [layerOf "r1" "sha256:ee" "http://x/l",
        { layerOf "r2" "" "" with Action := "delete" }]).1 (by decide),
   (Write_ignores_other_media_types (steady 9) []
      [pushOf "a" "d1" "u1", layerOf "a" "d2" "u2", pushOf "b" "d3" "u3"]).2.1
      [pushOf "a" "d1" "u1"] [pushOf "b" "d3" "u3"] (layerOf "a" "d2" "u2") rfl (by decide)⟩

end Index

/-! ## Properties of the query builder -/

namespace Index

theorem prepare_Skip (args : QueryArgs) :
    args.prepare.Skip = if args.Skip < 0 then 0 else args.Skip := by
  unfold QueryArgs.prepare
  by_cases h1 : args.Skip < 0 <;> by_cases h2 : args.Limit < 1 <;> simp [h1, h2]

theorem prepare_Limit (args : QueryArgs) :
    args.prepare.Limit = if args.Limit < 1 then defaultLimit else args.Limit := by
  unfold QueryArgs.prepare
  by_cases h1 : args.Skip < 0 <;> by_cases h2 : args.Limit < 1 <;> simp [h1, h2]

theorem prepare_Keyword (args : QueryArgs) : args.prepare.Keyword = args.Keyword := by
  unfold QueryArgs.prepare
  by_cases h1 : args.Skip < 0 <;> by_cases h2 : args.Limit < 1 <;> simp [h1, h2]

theorem prepare_Skip_nonneg (args : QueryArgs) : 0 ≤ args.prepare.Skip := by
  rw [prepare_Skip]
  split_ifs <;> omega

theorem prepare_Limit_pos (args : QueryArgs) : 1 ≤ args.prepare.Limit := by
  rw [prepare_Limit]
  split_ifs
  · decide
  · omega

theorem buildQuery_limit (args : QueryArgs) : (buildQuery args).limit = args.prepare.Limit := by
  simp only [buildQuery]
  split_ifs <;> rfl

theorem buildQuery_offset (args : QueryArgs) : (buildQuery args).offset = args.prepare.Skip := by
  simp only [buildQuery]
  split_ifs <;> rfl

theorem buildQuery_pattern (args : QueryArgs) :
    (buildQuery args).pattern =
      if args.Keyword = "" then none else some ("%" ++ args.Keyword ++ "%") := by
  have hlen : args.Keyword.length > 0 ↔ args.Keyword ≠ "" := by
    rw [gt_iff_lt, String.length, List.length_pos, ne_eq, ne_eq, String.ext_iff]
  simp only [buildQuery, prepare_Keyword]
  by_cases h : args.Keyword = ""
  · rw [if_neg (by rw [hlen]; simpa using h), if_pos h]
  · rw [if_pos (hlen.mpr h), if_neg h]

/-- The page `GetPage` returns when the driver executes the statement: of the
rows the `where` clause keeps, those from the normalised offset on, up to the
normalised page size, as far as they decode. -/
theorem GetPage_ok (t : Table) (args : QueryArgs) :
    GetPage .ok t args =
      (some ((((sqlWhere t (buildQuery args).pattern).drop args.prepare.Skip.toNat).take
        args.prepare.Limit.toNat).filterMap scan), none) := by
  have hl := prepare_Limit_pos args
  simp only [GetPage, sqlSelect, sqlLimitOffset, buildQuery_limit, buildQuery_offset]
  rw [if_neg (by omega)]

end Index

/-! ### The operator `like` -/

namespace Index

theorem likeChar_self (c : Char) : likeChar c c = true := by
  simp [likeChar]

theorem toNat_toLower (c : Char) :
    c.toLower.toNat = if 65 ≤ c.toNat ∧ c.toNat ≤ 90 then c.toNat + 32 else c.toNat := by
  unfold Char.toLower
  simp only [ge_iff_le]
  split_ifs with h
  · have hv : (c.val.toNat + 32).isValidChar := by
      left
      have := h.2
      simp only [Char.toNat] at this
      omega
    simp only [Char.ofNat, Char.toNat, Char.ofNatAux]
    rw [dif_pos hv]
    simp only [UInt32.toNat, BitVec.toNat_ofNatLt]
  · rfl

/-- What `like` takes for the same character: the same character once ASCII
capitals are made small. -/
theorem likeChar_iff (c d : Char) : likeChar c d = true ↔ c.toLower = d.toLower := by
  have hc := toNat_toLower c
  have hd := toNat_toLower d
  have hinj : ∀ a b : Char, a = b ↔ a.toNat = b.toNat := by
    intro a b
    constructor
    · intro h; rw [h]
    · intro h; exact Char.ext (UInt32.ext (by simpa [Char.toNat, UInt32.toNat] using h))
  simp only [likeChar, Bool.or_eq_true, Bool.and_eq_true, beq_iff_eq, decide_eq_true_eq]
  rw [hinj c.toLower d.toLower, hinj c d, hc, hd]
  split_ifs <;> omega

theorem forall₂_likeChar_iff (k run : List Char) :
    List.Forall₂ (fun c d => likeChar c d = true) k run ↔
      k.map Char.toLower = run.map Char.toLower := by
  simp only [likeChar_iff]
  rw [← List.forall₂_eq_eq_eq, List.forall₂_map_left_iff, List.forall₂_map_right_iff]

/-- The substring test up to case, told on the text itself: a run of the text
is the keyword, character by character as `like` compares them. -/
theorem containsUpToCase_iff (keyword text : String) :
    ContainsUpToCase keyword text ↔
      ∃ run : List Char, List.IsInfix run text.toList ∧
        List.Forall₂ (fun c d => likeChar c d = true) keyword.toList run := by
  unfold ContainsUpToCase
  constructor
  · rintro ⟨before, rest, hsplit⟩
    obtain ⟨l₁, rest', htext, h₁, -⟩ := List.map_eq_append_iff.mp hsplit.symm
    obtain ⟨before', run, hl₁, -, hrun⟩ := List.map_eq_append_iff.mp h₁
    exact ⟨run, ⟨before', rest', by rw [htext, hl₁]⟩, (forall₂_likeChar_iff _ _).mpr hrun.symm⟩
  · rintro ⟨run, ⟨before, rest, hsplit⟩, hrun⟩
    rw [(forall₂_likeChar_iff _ _).mp hrun, ← hsplit]
    exact ⟨before.map Char.toLower, rest.map Char.toLower, by simp⟩

theorem likeAnywhere_iff (f : List Char → Bool) (s : List Char) :
    likeAnywhere f s = true ↔ ∃ s', List.IsSuffix s' s ∧ f s' = true := by
  induction s with
  | nil => simp [likeAnywhere]
  | cons c s ih =>
    simp only [likeAnywhere, Bool.or_eq_true, ih, List.suffix_cons_iff]
    constructor
    · rintro (h | ⟨s', hs, hf⟩)
      · exact ⟨c :: s, Or.inl rfl, h⟩
      · exact ⟨s', Or.inr hs, hf⟩
    · rintro ⟨s', hs | hs, hf⟩
      · exact Or.inl (hs ▸ hf)
      · exact Or.inr ⟨s', hs, hf⟩

theorem like_percent_cons (p s : List Char) :
    like ('%' :: p) s = likeAnywhere (like p) s := by
  simp [like]

theorem like_cons_cons (c d : Char) (p s : List Char) (hc : c ≠ '%') :
    like (c :: p) (d :: s) = ((c == '_' || likeChar c d) && like p s) := by
  simp [like, hc]

theorem like_cons_nil (c : Char) (p : List Char) (hc : c ≠ '%') : like (c :: p) [] = false := by
  simp [like, hc]

theorem like_percent (s : List Char) : like ['%'] s = true := by
  rw [like_percent_cons, likeAnywhere_iff]
  exact ⟨[], List.nil_suffix, rfl⟩

/-- A pattern of characters that are no wildcards, then `%`: the text starts
with the characters, up to the case of ASCII letters. -/
theorem like_append_percent_iff (k : List Char) (hk : ∀ c ∈ k, c ≠ '%' ∧ c ≠ '_')
    (s : List Char) :
    like (k ++ ['%']) s = true ↔
      ∃ run rest, s = run ++ rest ∧ List.Forall₂ (fun c d => likeChar c d = true) k run := by
  induction k generalizing s with
  | nil =>
    simp only [List.nil_append, like_percent, true_iff]
    exact ⟨[], s, rfl, List.Forall₂.nil⟩
  | cons c k ih =>
    have hc := hk c (List.mem_cons_self _ _)
    have hk' : ∀ c ∈ k, c ≠ '%' ∧ c ≠ '_' := fun x hx => hk x (List.mem_cons_of_mem _ hx)
    cases s with
    | nil =>
      rw [List.cons_append, like_cons_nil _ _ hc.1]
      constructor
      · intro h; cases h
      · rintro ⟨run, rest, hs, hrun⟩
        cases hrun
        simp at hs
    | cons d s =>
      rw [List.cons_append, like_cons_cons _ _ _ _ hc.1]
      have hu : (c == '_') = false := by simpa using hc.2
      simp only [hu, Bool.false_or, Bool.and_eq_true, ih hk']
      constructor
      · rintro ⟨hcd, run, rest, hs, hrun⟩
        exact ⟨d :: run, rest, by rw [hs]; rfl, List.Forall₂.cons hcd hrun⟩
      · rintro ⟨run, rest, hs, hrun⟩
        cases hrun with
        | cons hcd hrun' =>
          rename_i d' run'
          simp only [List.cons_append, List.cons.injEq] at hs
          obtain ⟨rfl, rfl⟩ := hs
          exact ⟨hcd, run', rest, rfl, hrun'⟩

/-- Any pattern followed by `%` accepts the texts that start with the
characters of the pattern. -/
theorem like_append_percent_self (k rest : List Char) : like (k ++ ['%']) (k ++ rest) = true := by
  induction k with
  | nil => exact like_percent rest
  | cons c k ih =>
    by_cases hc : c = '%'
    · subst hc
      rw [List.cons_append, like_percent_cons, likeAnywhere_iff]
      exact ⟨k ++ rest, List.suffix_cons _ _, ih⟩
    · rw [List.cons_append, List.cons_append, like_cons_cons _ _ _ _ hc, likeChar_self, ih]
      simp

theorem toList_pattern (keyword : String) :
    ("%" ++ keyword ++ "%").toList = '%' :: (keyword.toList ++ ['%']) := by
  simp [String.toList]

/-- For characters that are no wildcards, `like` between two `%` looks for a
run of the text that is these characters, up to the case of ASCII letters. -/
theorem like_between_iff (k s : List Char) (hk : ∀ c ∈ k, c ≠ '%' ∧ c ≠ '_') :
    like ('%' :: (k ++ ['%'])) s = true ↔
      ∃ run, List.IsInfix run s ∧ List.Forall₂ (fun c d => likeChar c d = true) k run := by
  rw [like_percent_cons, likeAnywhere_iff]
  constructor
  · rintro ⟨s', hs, hlike⟩
    obtain ⟨run, rest, rfl, hrun⟩ := (like_append_percent_iff _ hk _).mp hlike
    obtain ⟨before, hbefore⟩ := hs
    exact ⟨run, ⟨before, rest, by rw [← hbefore, List.append_assoc]⟩, hrun⟩
  · rintro ⟨run, ⟨before, rest, hsplit⟩, hrun⟩
    refine ⟨run ++ rest, ⟨before, by rw [← hsplit, List.append_assoc]⟩, ?_⟩
    exact (like_append_percent_iff _ hk _).mpr ⟨run, rest, rfl, hrun⟩

/-- For any characters, `like` between two `%` accepts the texts that have
them as a run. -/
theorem like_between_of_infix (k s : List Char) (h : List.IsInfix k s) :
    like ('%' :: (k ++ ['%'])) s = true := by
  obtain ⟨before, rest, hsplit⟩ := h
  rw [like_percent_cons, likeAnywhere_iff]
  refine ⟨k ++ rest, ⟨before, by rw [← hsplit, List.append_assoc]⟩, ?_⟩
  exact like_append_percent_self _ _

theorem cstr_eq_self (s : List Char) (h : ∀ c ∈ s, c ≠ Char.ofNat 0) : cstr s = s := by
  rw [cstr, List.takeWhile_eq_self_iff]
  intro c hc
  simpa using h c hc

theorem cstr_starts (s : List Char) : List.IsPrefix (cstr s) s :=
  List.takeWhile_prefix _

/-- A keyword without NUL is read whole, and so is the pattern made of it. -/
theorem cstr_pattern (keyword : String) (h : NulFree keyword) :
    cstr ("%" ++ keyword ++ "%").toList = '%' :: (keyword.toList ++ ['%']) := by
  rw [toList_pattern]
  apply cstr_eq_self
  intro c hc
  simp only [List.mem_cons, List.mem_append, List.mem_singleton, List.not_mem_nil,
    or_false] at hc
  rcases hc with rfl | hc | rfl
  · decide
  · exact h c hc
  · decide

/-- A repository that a keyword without wildcard and without NUL selects has
the keyword as a substring, up to the case of ASCII letters. -/
theorem contains_of_like (keyword name : String) (hw : WildcardFree keyword)
    (hn : NulFree keyword)
    (h : like (cstr ("%" ++ keyword ++ "%").toList) (cstr name.toList) = true) :
    ContainsUpToCase keyword name := by
  rw [cstr_pattern keyword hn, like_between_iff _ _ hw] at h
  obtain ⟨run, hrun, hall⟩ := h
  exact (containsUpToCase_iff keyword name).mpr
    ⟨run, hrun.trans (cstr_starts name.toList).isInfix, hall⟩

/-- A keyword without NUL selects the repositories without NUL that have it as
a substring, and for a keyword without wildcard those that have it up to the
case of ASCII letters. -/
theorem like_of_contains (keyword name : String) (hn : NulFree keyword) (hname : NulFree name)
    (h : Contains keyword name ∨ (WildcardFree keyword ∧ ContainsUpToCase keyword name)) :
    like (cstr ("%" ++ keyword ++ "%").toList) (cstr name.toList) = true := by
  rw [cstr_pattern keyword hn, cstr_eq_self name.toList hname]
  rcases h with h | ⟨hw, h⟩
  · exact like_between_of_infix _ _ h
  · exact (like_between_iff _ _ hw).mpr ((containsUpToCase_iff keyword name).mp h)

end Index

/-! ### Pages -/

namespace Index

theorem filterMap_take_drop {α β : Type} (f : α → Option β) (l : List α)
    (h : ∀ x ∈ l, ∃ y, f x = some y) (a b : Nat) :
    ((l.drop a).take b).filterMap f = ((l.filterMap f).drop a).take b := by
  induction l generalizing a b with
  | nil => simp
  | cons x l ih =>
    obtain ⟨y, hy⟩ := h x (List.mem_cons_self _ _)
    have hl : ∀ x ∈ l, ∃ y, f x = some y := fun z hz => h z (List.mem_cons_of_mem _ hz)
    cases a with
    | zero =>
      cases b with
      | zero => simp
      | succ b =>
        have := ih hl 0 b
        simp only [List.drop_zero] at this
        simp [List.filterMap_cons, hy, this]
    | succ a =>
      simpa [List.filterMap_cons, hy] using ih hl a b

theorem map_some_filterMap {α β : Type} (f : α → Option β) (l : List α)
    (h : ∀ x ∈ l, (f x).isSome = true) : (l.filterMap f).map some = l.map f := by
  induction l with
  | nil => rfl
  | cons x l ih =>
    obtain ⟨y, hy⟩ := Option.isSome_iff_exists.mp (h x (List.mem_cons_self _ _))
    simp [List.filterMap_cons, hy, ih (fun z hz => h z (List.mem_cons_of_mem _ hz))]

theorem sqlWhere_some (t : Table) (pattern : String) :
    sqlWhere t (some pattern) =
      if pattern.utf8ByteSize > likePatternLimit then []
      else
        t.filter fun r =>
          match r.repository with
          | none => false
          | some s => like (cstr pattern.toList) (cstr s.toList) := rfl

theorem sqlWhere_sublist (t : Table) (pattern : Option String) :
    List.Sublist (sqlWhere t pattern) t := by
  cases pattern with
  | none => exact List.Sublist.refl t
  | some p =>
    rw [sqlWhere_some]
    split_ifs
    · exact List.nil_sublist t
    · exact List.filter_sublist t

/-- A row that comes through a `where` clause is a row of the table whose
repository is `like` the pattern. -/
theorem mem_sqlWhere_some {t : Table} {pattern : String} {r : Row}
    (h : r ∈ sqlWhere t (some pattern)) :
    r ∈ t ∧ ∃ name, r.repository = some name ∧
      like (cstr pattern.toList) (cstr name.toList) = true := by
  rw [sqlWhere_some] at h
  split_ifs at h
  · cases h
  · obtain ⟨hr, hlike⟩ := List.mem_filter.mp h
    cases hrepo : r.repository with
    | none => simp [hrepo] at hlike
    | some name => exact ⟨hr, name, rfl, by simpa [hrepo] using hlike⟩

theorem sqlSelect_subset (t : Table) (q : Query) {r : Row} (h : r ∈ sqlSelect t q) :
    r ∈ sqlWhere t q.pattern := by
  unfold sqlSelect sqlLimitOffset at h
  dsimp only at h
  split_ifs at h
  · exact List.mem_of_mem_drop h
  · exact List.mem_of_mem_drop (List.mem_of_mem_take h)

theorem utf8ByteSize_pattern (keyword : String) :
    ("%" ++ keyword ++ "%").utf8ByteSize = keyword.utf8ByteSize + 2 := by
  have h : ("%" ++ keyword ++ "%") = String.mk ('%' :: (keyword.data ++ ['%'])) := by
    apply String.ext
    simp
  have hk : keyword.utf8ByteSize = String.utf8Len keyword.data := rfl
  have h1 : Char.utf8Size '%' = 1 := by decide
  rw [h, String.utf8ByteSize_mk, String.utf8Len_cons, String.utf8Len_append,
    String.utf8Len_cons, String.utf8Len_nil, h1, hk]

theorem matching_sublist (t : Table) (keyword : String) :
    List.Sublist (matching t keyword) t :=
  List.filter_sublist t

theorem matching_decodable (t : Table) (keyword : String) (h : Decodable t) :
    Decodable (matching t keyword) :=
  fun r hr => h r ((matching_sublist t keyword).subset hr)

theorem matching_empty (t : Table) : matching t "" = t := by
  rw [matching, List.filter_eq_self]
  intro r _
  simp [Selects]

theorem mem_matching {t : Table} {keyword : String} (hk : keyword ≠ "") {r : Row} :
    r ∈ matching t keyword ↔
      r ∈ t ∧ ∃ name, r.repository = some name ∧
        like (cstr ("%" ++ keyword ++ "%").toList) (cstr name.toList) = true := by
  simp only [matching, List.mem_filter, Selects, Bool.or_eq_true, beq_iff_eq, hk, false_or]
  constructor
  · rintro ⟨hr, hlike⟩
    cases hrepo : r.repository with
    | none => simp [hrepo] at hlike
    | some name => exact ⟨hr, name, rfl, by simpa [hrepo] using hlike⟩
  · rintro ⟨hr, name, hrepo, hlike⟩
    exact ⟨hr, by simpa [hrepo] using hlike⟩

/-- Within the bound on the pattern, the rows that come through the `where`
clause of `GetPage` are the rows the keyword selects. -/
theorem sqlWhere_buildQuery (t : Table) (args : QueryArgs)
    (hb : args.Keyword.utf8ByteSize + 2 ≤ likePatternLimit) :
    sqlWhere t (buildQuery args).pattern = matching t args.Keyword := by
  rw [buildQuery_pattern]
  by_cases hk : args.Keyword = ""
  · rw [if_pos hk, hk, matching_empty]
    rfl
  · rw [if_neg hk]
    rw [sqlWhere_some, if_neg (by rw [utf8ByteSize_pattern]; omega), matching]
    apply List.filter_congr
    intro r _
    simp [Selects, hk]

/-- Beyond the bound on the pattern the page is empty and the error nil. -/
theorem GetPage_ok_of_long_keyword (t : Table) (args : QueryArgs)
    (h : likePatternLimit < args.Keyword.utf8ByteSize + 2) :
    GetPage .ok t args = (some [], none) := by
  have hk : args.Keyword ≠ "" := by
    intro hk
    rw [hk] at h
    exact absurd h (by decide)
  have hwhere : sqlWhere t (buildQuery args).pattern = [] := by
    rw [buildQuery_pattern, if_neg hk]
    rw [sqlWhere_some, if_pos (by rw [utf8ByteSize_pattern]; exact h)]
  rw [GetPage_ok, hwhere]
  simp

theorem utf8Len_replicate (n : Nat) : String.utf8Len (List.replicate n 'a') = n := by
  induction n with
  | zero => rfl
  | succ n ih =>
    have h1 : Char.utf8Size 'a' = 1 := by decide
    rw [List.replicate_succ, String.utf8Len_cons, ih, h1]

/-- A keyword of `n` letters `a`, with `n + 2` over the bound on the pattern,
has an empty page and a nil error. -/
theorem GetPage_ok_of_long_run (n : Nat) (h : likePatternLimit < n + 2) (t : Table)
    (skip limit : Int) :
    GetPage .ok t { Keyword := String.mk (List.replicate n 'a'), Skip := skip, Limit := limit } =
      (some [], none) := by
  apply GetPage_ok_of_long_keyword
  show likePatternLimit < (String.mk (List.replicate n 'a')).utf8ByteSize + 2
  rw [String.utf8ByteSize_mk, utf8Len_replicate]
  exact h

theorem nulFree_run (n : Nat) : NulFree (String.mk (List.replicate n 'a')) := by
  intro c hc
  have hc' : c = 'a' := List.eq_of_mem_replicate hc
  rw [hc']
  decide

/-- A keyword of letters `a` selects the row whose repository it is, however
long it is. -/
theorem matching_run (n : Nat) (id : Int) (digest url : String) (updatedAt : Time) :
    matching [rowOf id (String.mk (List.replicate n 'a')) digest url updatedAt]
        (String.mk (List.replicate n 'a')) =
      [rowOf id (String.mk (List.replicate n 'a')) digest url updatedAt] := by
  rw [matching, List.filter_eq_self]
  intro r hr
  rw [List.mem_singleton] at hr
  have hlike := like_of_contains (String.mk (List.replicate n 'a'))
    (String.mk (List.replicate n 'a')) (nulFree_run n) (nulFree_run n)
    (Or.inl (List.infix_refl _))
  rw [hr, Selects, Bool.or_eq_true]
  exact Or.inr hlike

/-- The page of a table all of whose rows decode, for a keyword within the
bound on the pattern: the records of the selected rows from the normalised
offset on, up to the normalised page size. -/
theorem GetPage_ok_decodable (t : Table) (args : QueryArgs) (h : Decodable t)
    (hb : args.Keyword.utf8ByteSize + 2 ≤ likePatternLimit) :
    GetPage .ok t args =
      (some (((matchingRecords t args.Keyword).drop args.prepare.Skip.toNat).take
        args.prepare.Limit.toNat), none) := by
  rw [GetPage_ok, sqlWhere_buildQuery t args hb,
    filterMap_take_drop scan _
      (fun r hr => Option.isSome_iff_exists.mp (matching_decodable t args.Keyword h r hr)),
    matchingRecords]

theorem prepare_of_valid (keyword : String) (skip limit : Int) (hskip : 0 ≤ skip)
    (hlimit : 1 ≤ limit) :
    ({ Keyword := keyword, Skip := skip, Limit := limit } : QueryArgs).prepare =
      { Keyword := keyword, Skip := skip, Limit := limit } := by
  simp [QueryArgs.prepare, not_lt.mpr hskip, not_lt.mpr hlimit]

/-- Rows of which each repository name has at most one are pairwise different
in their repository, NULL apart. -/
theorem pairwise_of_atMostOne (t : Table) (h : AtMostOnePerRepository t) :
    t.Pairwise (fun a b => ∀ name, a.repository = some name → b.repository ≠ some name) := by
  induction t with
  | nil => exact List.Pairwise.nil
  | cons a t ih =>
    refine List.Pairwise.cons ?_ (ih ?_)
    · intro b hb name ha hb'
      have hlen := h name
      have hmem : b ∈ t.filter (fun r => decide (r.repository = some name)) := by
        simp [List.mem_filter, hb, hb']
      have hpos := List.length_pos_of_mem hmem
      rw [List.filter_cons_of_pos (by simpa using ha), List.length_cons] at hlen
      omega
    · intro name
      have hlen := h name
      by_cases ha : a.repository = some name
      · rw [List.filter_cons_of_pos (by simpa using ha), List.length_cons] at hlen
        omega
      · rw [List.filter_cons_of_neg (by simpa using ha)] at hlen
        exact hlen

theorem scan_Repository (r : Row) (record : Record) (h : scan r = some record) :
    r.repository = some record.Repository := by
  unfold scan at h
  split at h
  · rename_i hrepo _ _ _
    cases h
    exact hrepo
  · cases h

/-- The records of a table with at most one row per repository are pairwise
different. -/
theorem matchingRecords_nodup (t : Table) (keyword : String) (h : AtMostOnePerRepository t) :
    (matchingRecords t keyword).Nodup := by
  have hp := (pairwise_of_atMostOne t h).sublist (matching_sublist t keyword)
  rw [matchingRecords, List.Nodup, List.pairwise_filterMap]
  refine hp.imp ?_
  intro a b hab ra hra rb hrb heq
  have ha := scan_Repository a ra (by simpa using hra)
  have hb := scan_Repository b rb (by simpa using hrb)
  exact hab _ ha (heq ▸ hb)

/-- Every element of a list is on one of its pages of size `n`. -/
theorem mem_page_of_mem {α : Type} (l : List α) (n : Nat) (hn : 0 < n) (x : α) (hx : x ∈ l) :
    ∃ i, x ∈ (l.drop (i * n)).take n := by
  obtain ⟨k, hk⟩ := List.mem_iff_getElem?.mp hx
  refine ⟨k / n, List.mem_iff_getElem?.mpr ⟨k % n, ?_⟩⟩
  rw [List.getElem?_take_of_lt (Nat.mod_lt k hn), List.getElem?_drop, Nat.div_add_mod' k n, hk]

/-- Two pages of a list without duplicates, the second starting at or after the
end of the first, share no element. -/
theorem page_disjoint {α : Type} (l : List α) (hl : l.Nodup) (a b n m : Nat) (hab : a + n ≤ b) :
    List.Disjoint ((l.drop a).take n) ((l.drop b).take m) := by
  intro x hx1 hx2
  have h1 : x ∈ l.take (a + n) := by
    rw [List.take_add]
    exact List.mem_append_right _ hx1
  have h2 : x ∈ l.drop b := List.mem_of_mem_take hx2
  exact List.disjoint_take_drop hl hab h1 h2

end Index

/-! ## The claims on the query builder -/

namespace Index

/-- C3 (argument normalisation).  For every `QueryArgs`, after `prepare` the
Skip is 0 when the given Skip is negative and the given Skip otherwise, the
Limit is 20 when the given Limit is zero or negative and the given Limit
otherwise, and the Keyword is the given one; the statement `GetPage` issues has
the normalised Skip as its offset and the normalised Limit as its limit, and
the page returned is cut out of the selected rows at these two values. -/
theorem prepare_normalises (args : QueryArgs) (t : Table) :
    args.prepare.Skip = (if args.Skip < 0 then 0 else args.Skip) ∧
    args.prepare.Limit = (if args.Limit ≤ 0 then 20 else args.Limit) ∧
    args.prepare.Keyword = args.Keyword ∧
    (buildQuery args).offset = args.prepare.Skip ∧
    (buildQuery args).limit = args.prepare.Limit ∧
    GetPage .ok t args =
      (some ((((sqlWhere t (buildQuery args).pattern).drop args.prepare.Skip.toNat).take
        args.prepare.Limit.toNat).filterMap scan), none) := by
  refine ⟨prepare_Skip args, ?_, prepare_Keyword args, buildQuery_offset args,
    buildQuery_limit args, GetPage_ok t args⟩
  rw [prepare_Limit]
  by_cases h : args.Limit < 1
  · rw [if_pos h, if_pos (by omega)]; rfl
  · rw [if_neg h, if_neg (by omega)]

end Index

namespace Index

/-- C5, as the code has it (pagination).  For every table all of whose rows
decode and that has at most one row per repository, every keyword of at most
49998 bytes (so that between two `%` it stays within the bound of 50000 bytes
on a `like` pattern), every skip >= 0 and every limit >= 1, when the driver
executes the statement: `GetPage` returns, with a nil error, the records of
the rows the keyword selects at the positions skip to skip+limit-1 of the scan
order (the records stand one for one for the selected rows).  The rows
selected are all rows for the empty keyword and, for a keyword without `%`,
`_` and NUL, among the rows whose repository has no NUL those whose repository
contains the keyword up to the case of ASCII letters.  The page has at most
limit records and is the empty sequence when no row is selected; a page and
the next one are two adjacent stretches of the selected rows; two pages of
which the second starts at or after the end of the first share no record;
every selected row is on one of the pages at skip 0, limit, 2*limit and so on;
and when two rows are selected, page size 1 gives the first at skip 0 and the
second at skip 1, two different records. -/
theorem GetPage_pagination (t : Table) (keyword : String) (skip limit : Int)
    (hdec : Decodable t) (huniq : AtMostOnePerRepository t)
    (hbound : keyword.utf8ByteSize + 2 ≤ likePatternLimit)
    (hskip : 0 ≤ skip) (hlimit : 1 ≤ limit) :
    GetPage .ok t { Keyword := keyword, Skip := skip, Limit := limit } =
      (some (((matchingRecords t keyword).drop skip.toNat).take limit.toNat), none) ∧
    (matchingRecords t keyword).map some = (matching t keyword).map scan ∧
    (keyword = "" → matching t keyword = t) ∧
    (keyword ≠ "" → WildcardFree keyword → NulFree keyword →
      ∀ r ∈ t, ∀ name, r.repository = some name → NulFree name →
        (r ∈ matching t keyword ↔ ContainsUpToCase keyword name)) ∧
    (((matchingRecords t keyword).drop skip.toNat).take limit.toNat).length ≤ limit.toNat ∧
    (matching t keyword = [] →
      GetPage .ok t { Keyword := keyword, Skip := skip, Limit := limit } = (some [], none)) ∧
    (∀ page next,
      (GetPage .ok t { Keyword := keyword, Skip := skip, Limit := limit }).1 = some page →
      (GetPage .ok t { Keyword := keyword, Skip := skip + limit, Limit := limit }).1 = some next →
      page ++ next = ((matchingRecords t keyword).drop skip.toNat).take (limit.toNat + limit.toNat)) ∧
    (∀ (later : Int) page other, skip + limit ≤ later →
      (GetPage .ok t { Keyword := keyword, Skip := skip, Limit := limit }).1 = some page →
      (GetPage .ok t { Keyword := keyword, Skip := later, Limit := limit }).1 = some other →
      ∀ record ∈ page, record ∉ other) ∧
    (∀ r ∈ matching t keyword, ∃ (i : Nat) (record : Record) (page : List Record),
      scan r = some record ∧
      (GetPage .ok t { Keyword := keyword, Skip := i * limit, Limit := limit }).1 = some page ∧
      record ∈ page) ∧
    (∀ a b, matching t keyword = [a, b] → ∃ ra rb, scan a = some ra ∧ scan b = some rb ∧
      ra ≠ rb ∧
      GetPage .ok t { Keyword := keyword, Skip := 0, Limit := 1 } = (some [ra], none) ∧
      GetPage .ok t { Keyword := keyword, Skip := 1, Limit := 1 } = (some [rb], none)) := by
  have hpage : ∀ (s l : Int), 0 ≤ s → 1 ≤ l →
      GetPage .ok t { Keyword := keyword, Skip := s, Limit := l } =
        (some (((matchingRecords t keyword).drop s.toNat).take l.toNat), none) := by
    intro s l hs hl
    rw [GetPage_ok_decodable t _ hdec hbound, prepare_of_valid keyword s l hs hl]
  have hnodup := matchingRecords_nodup t keyword huniq
  have hmdec := matching_decodable t keyword hdec
  have hlpos : 0 < limit.toNat := by omega
  refine ⟨hpage skip limit hskip hlimit, ?_, ?_, ?_, ?_, ?_, ?_, ?_, ?_, ?_⟩
  · exact map_some_filterMap scan _ hmdec
  · intro hk
    rw [hk, matching_empty]
  · intro hk hw hn r hr name hname hnul
    rw [mem_matching hk]
    constructor
    · rintro ⟨-, name', hname', hlike⟩
      rw [hname] at hname'
      cases hname'
      exact contains_of_like keyword name hw hn hlike
    · intro hc
      exact ⟨hr, name, hname, like_of_contains keyword name hn hnul (Or.inr ⟨hw, hc⟩)⟩
  · exact (List.length_take_le _ _)
  · intro hnone
    rw [hpage skip limit hskip hlimit, matchingRecords, hnone]
    simp
  · intro page next h1 h2
    rw [hpage skip limit hskip hlimit] at h1
    rw [hpage (skip + limit) limit (by omega) hlimit] at h2
    cases h1
    cases h2
    rw [Int.toNat_add hskip (by omega), List.take_add, List.drop_drop]
  · intro later page other hlater h1 h2
    rw [hpage skip limit hskip hlimit] at h1
    rw [hpage later limit (by omega) hlimit] at h2
    cases h1
    cases h2
    intro record hr hr'
    exact page_disjoint _ hnodup skip.toNat later.toNat limit.toNat limit.toNat (by omega) hr hr'
  · intro r hr
    obtain ⟨record, hrec⟩ := Option.isSome_iff_exists.mp (hmdec r hr)
    have hmem : record ∈ matchingRecords t keyword :=
      List.mem_filterMap.mpr ⟨r, hr, hrec⟩
    obtain ⟨i, hi⟩ := mem_page_of_mem _ limit.toNat hlpos record hmem
    refine ⟨i, record, _, hrec, ?_, hi⟩
    rw [hpage (i * limit) limit (by positivity) hlimit]
    have : ((i : Int) * limit).toNat = i * limit.toNat := by
      have h := Int.toNat_of_nonneg (by omega : 0 ≤ limit)
      have h' : ((i : Int) * limit) = ((i * limit.toNat : Nat) : Int) := by
        rw [Nat.cast_mul, h]
      rw [h', Int.toNat_natCast]
    simp only [this]
  · intro a b hab
    obtain ⟨ra, hra⟩ := Option.isSome_iff_exists.mp (hmdec a (by rw [hab]; simp))
    obtain ⟨rb, hrb⟩ := Option.isSome_iff_exists.mp (hmdec b (by rw [hab]; simp))
    have hrecords : matchingRecords t keyword = [ra, rb] := by
      simp [matchingRecords, hab, List.filterMap_cons, hra, hrb]
    rw [hrecords] at hnodup
    refine ⟨ra, rb, hra, hrb, by simpa using hnodup, ?_, ?_⟩
    · rw [hpage 0 1 (by omega) (by omega), hrecords]; rfl
    · rw [hpage 1 1 (by omega) (by omega), hrecords]; rfl

/-- Witness of C5: the rows `alpha/one`, `alpha/two` and `beta/one`, keyword
`alpha`, page size 1: `alpha/one` at skip 0, `alpha/two` at skip 1, nothing at
skip 2; run on the code, page size 20 gives these two records and no other. -/
theorem GetPage_pagination_witness :
    GetPage .ok alphaBeta { Keyword := "alpha", Skip := 0, Limit := 1 } =
      (some [{ Repository := "alpha/one", Digest := "sha256:01",
               Url := "http://x/alpha/one", UpdatedAt := 1 }], none) ∧
    GetPage .ok alphaBeta { Keyword := "alpha", Skip := 1, Limit := 1 } =
      (some [{ Repository := "alpha/two", Digest := "sha256:02",
               Url := "http://x/alpha/two", UpdatedAt := 2 }], none) ∧
    GetPage .ok alphaBeta { Keyword := "alpha", Skip := 2, Limit := 1 } = (some [], none) ∧
    GetPage .ok alphaBeta { Keyword := "alpha", Skip := 0, Limit := 20 } =
      (some [{ Repository := "alpha/one", Digest := "sha256:01",
               Url := "http://x/alpha/one", UpdatedAt := 1 },
             { Repository := "alpha/two", Digest := "sha256:02",
               Url := "http://x/alpha/two", UpdatedAt := 2 }], none) :=
  ⟨(GetPage_pagination alphaBeta "alpha" 0 1 (by decide) (atMostOne_of_pairwise _ (by decide))
      (by decide) (by decide) (by decide)).1.trans (by decide),
   (GetPage_pagination alphaBeta "alpha" 1 1 (by decide) (atMostOne_of_pairwise _ (by decide))
      (by decide) (by decide) (by decide)).1.trans (by decide),
   (GetPage_pagination alphaBeta "alpha" 2 1 (by decide) (atMostOne_of_pairwise _ (by decide))
      (by decide) (by decide) (by decide)).1.trans (by decide),
   by decide⟩

/-- Counterexample to C5: the table has one row, of the repository made of
49999 letters `a`; it decodes and the table has one row per repository.  For
the keyword equal to that repository the pattern has 50001 bytes, and at skip
0 the page is empty with a nil error, for limit 1 as for limit 20, although
the repository of the row is the keyword and the keyword selects the row. -/
theorem GetPage_long_keyword_empty :
    Decodable [rowOf 1 longKeyword "sha256:aa" "http://x/a" 1] ∧
    AtMostOnePerRepository [rowOf 1 longKeyword "sha256:aa" "http://x/a" 1] ∧
    (rowOf 1 longKeyword "sha256:aa" "http://x/a" 1).repository = some longKeyword ∧
    Contains longKeyword longKeyword ∧
    matching [rowOf 1 longKeyword "sha256:aa" "http://x/a" 1] longKeyword =
      [rowOf 1 longKeyword "sha256:aa" "http://x/a" 1] ∧
    GetPage .ok [rowOf 1 longKeyword "sha256:aa" "http://x/a" 1]
      { Keyword := longKeyword, Skip := 0, Limit := 1 } = (some [], none) ∧
    GetPage .ok [rowOf 1 longKeyword "sha256:aa" "http://x/a" 1]
      { Keyword := longKeyword, Skip := 0, Limit := 20 } = (some [], none) := by
  refine ⟨?_, atMostOne_of_pairwise _ (List.pairwise_singleton _ _), rfl,
    List.infix_refl _, matching_run 49999 1 "sha256:aa" "http://x/a" 1, ?_, ?_⟩
  · intro r hr
    rw [List.mem_singleton] at hr
    rw [hr]
    rfl
  · exact GetPage_ok_of_long_run 49999 (by decide) _ 0 1
  · exact GetPage_ok_of_long_run 49999 (by decide) _ 0 20

end Index

namespace Index

/-- C4, as the code has it (keyword filter).  For every table and every
non-empty keyword without NUL: each record `GetPage` returns is the record of
a row of the table and, when the keyword has neither `%` nor `_`, its
repository contains the keyword as a substring up to the case of ASCII
letters; and when the keyword has at most 49998 bytes, with skip 0 and a limit
at least the row count, when the driver executes the statement, every row
that decodes and whose repository has no NUL and contains the keyword as a
substring (or, for a keyword with neither `%` nor `_`, contains it up to the
case of ASCII letters) is returned.  For the rows `alpha/one`, `alpha/two`,
`beta/one`, in any order, and the keyword `alpha`, the records returned are
those of `alpha/one` and `alpha/two`. -/
theorem GetPage_keyword (outcome : QueryOutcome) (t : Table) (args : QueryArgs)
    (hk : args.Keyword ≠ "") (hnul : NulFree args.Keyword) :
    (∀ page, (GetPage outcome t args).1 = some page → ∀ record ∈ page,
      (∃ r ∈ t, scan r = some record) ∧
      (WildcardFree args.Keyword → ContainsUpToCase args.Keyword record.Repository)) ∧
    (args.Keyword.utf8ByteSize + 2 ≤ likePatternLimit → args.Skip = 0 →
      (t.length : Int) ≤ args.Limit →
      ∀ r ∈ t, ∀ record, scan r = some record → NulFree record.Repository →
        (Contains args.Keyword record.Repository ∨
          (WildcardFree args.Keyword ∧ ContainsUpToCase args.Keyword record.Repository)) →
        ∃ page, GetPage .ok t args = (some page, none) ∧ record ∈ page) ∧
    (∀ rows, List.Perm rows alphaBeta → ∃ page,
      GetPage .ok rows { Keyword := "alpha", Skip := 0, Limit := 0 } = (some page, none) ∧
      List.Perm page
        [{ Repository := "alpha/one", Digest := "sha256:01",
           Url := "http://x/alpha/one", UpdatedAt := 1 },
         { Repository := "alpha/two", Digest := "sha256:02",
           Url := "http://x/alpha/two", UpdatedAt := 2 }]) := by
  have hsound : ∀ rows : List Row, (∀ r ∈ rows, r ∈ sqlSelect t (buildQuery args)) →
      ∀ record ∈ rows.filterMap scan,
        (∃ r ∈ t, scan r = some record) ∧
        (WildcardFree args.Keyword → ContainsUpToCase args.Keyword record.Repository) := by
    intro rows hrows record hrecord
    obtain ⟨r, hr, hscan⟩ := List.mem_filterMap.mp hrecord
    have hr' := sqlSelect_subset t _ (hrows r hr)
    rw [buildQuery_pattern, if_neg hk] at hr'
    obtain ⟨hrt, name, hname, hlike⟩ := mem_sqlWhere_some hr'
    have hrepo := scan_Repository r record hscan
    rw [hname] at hrepo
    cases hrepo
    exact ⟨⟨r, hrt, hscan⟩, fun hw => contains_of_like _ _ hw hnul hlike⟩
  refine ⟨?_, ?_, ?_⟩
  · intro page hpage record hrecord
    cases outcome with
    | prepareFailed err => simp [GetPage] at hpage
    | queryFailed err => simp [GetPage] at hpage
    | stepFailed delivered err =>
      simp only [GetPage] at hpage
      cases hpage
      exact hsound _ (fun r hr => List.mem_of_mem_take hr) record hrecord
    | ok =>
      simp only [GetPage] at hpage
      cases hpage
      exact hsound _ (fun r hr => hr) record hrecord
  · intro hbound hskip hlimit r hr record hscan hname hcontains
    have hlike := like_of_contains _ _ hnul hname hcontains
    have hr' : r ∈ matching t args.Keyword :=
      (mem_matching hk).mpr ⟨hr, record.Repository, scan_Repository r record hscan, hlike⟩
    have hpos : 0 < t.length := List.length_pos_of_mem hr
    have hlim : args.prepare.Limit = args.Limit := by
      rw [prepare_Limit, if_neg (by omega)]
    have hsk : args.prepare.Skip = 0 := by
      rw [prepare_Skip, hskip]; rfl
    have hlen : (matching t args.Keyword).length ≤ args.Limit.toNat := by
      have := (matching_sublist t args.Keyword).length_le
      omega
    refine ⟨_, by rw [GetPage_ok, sqlWhere_buildQuery t args hbound],
      List.mem_filterMap.mpr ⟨r, ?_, hscan⟩⟩
    rw [hlim, hsk]
    simpa [List.take_of_length_le hlen] using hr'
  · intro rows hrows
    have hlen : (matching rows "alpha").length ≤ 20 := by
      have h1 := (matching_sublist rows "alpha").length_le
      have h2 : rows.length = 3 := hrows.length_eq
      omega
    have hm : List.Perm (matching rows "alpha") (matching alphaBeta "alpha") :=
      hrows.filter _
    have hrecords : (matching alphaBeta "alpha").filterMap scan =
        [{ Repository := "alpha/one", Digest := "sha256:01",
           Url := "http://x/alpha/one", UpdatedAt := 1 },
         { Repository := "alpha/two", Digest := "sha256:02",
           Url := "http://x/alpha/two", UpdatedAt := 2 }] := by
      decide
    refine ⟨_, GetPage_ok rows _, ?_⟩
    rw [sqlWhere_buildQuery rows _ (by decide)]
    have hprep : ({ Keyword := "alpha", Skip := 0, Limit := 0 } : QueryArgs).prepare =
        { Keyword := "alpha", Skip := 0, Limit := 20 } := by decide
    rw [hprep]
    show List.Perm (List.filterMap scan (List.take 20 (List.drop 0 (matching rows "alpha")))) _
    rw [List.drop_zero, List.take_of_length_le hlen, ← hrecords]
    exact hm.filterMap scan

/-- Witness of C4: the keyword `one` on the rows `alpha/one`, `alpha/two` and
`beta/one` returns the record of `alpha/one`. -/
theorem GetPage_keyword_witness :
    ∃ page, GetPage .ok alphaBeta { Keyword := "one", Skip := 0, Limit := 5 } = (some page, none) ∧
      ({ Repository := "alpha/one", Digest := "sha256:01", Url := "http://x/alpha/one",
         UpdatedAt := 1 } : Record) ∈ page :=
  (GetPage_keyword .ok alphaBeta { Keyword := "one", Skip := 0, Limit := 5 } (by decide)
      (by decide)).2.1
    (by decide) rfl (by decide)
    { id := 1, repository := some "alpha/one", digest := some "sha256:01",
      url := some "http://x/alpha/one", updated_at := some 1 }
    (by decide) _ rfl (by decide) (Or.inl (by decide))

/-- Counterexample to C4: the keywords `ALPHA` and `a_p` return the records of
`alpha/one` and `alpha/two`, whose repositories have neither keyword as a
substring; the keyword that is one NUL returns all three records, none of
whose repositories has a NUL; a row of `alpha/one` with a NULL digest, and a
row whose repository has `alpha` after a NUL, are not returned for the keyword
`alpha`, at skip 0 and a limit of the row count; and a row whose repository is
49999 letters `a` is not returned for the keyword equal to it. -/
theorem GetPage_keyword_not_substring :
    ((GetPage .ok alphaBeta { Keyword := "ALPHA", Skip := 0, Limit := 0 }).1 =
        some [{ Repository := "alpha/one", Digest := "sha256:01",
                Url := "http://x/alpha/one", UpdatedAt := 1 },
              { Repository := "alpha/two", Digest := "sha256:02",
                Url := "http://x/alpha/two", UpdatedAt := 2 }] ∧
      ¬ Contains "ALPHA" "alpha/one") ∧
    ((GetPage .ok alphaBeta { Keyword := "a_p", Skip := 0, Limit := 0 }).1 =
        some [{ Repository := "alpha/one", Digest := "sha256:01",
                Url := "http://x/alpha/one", UpdatedAt := 1 },
              { Repository := "alpha/two", Digest := "sha256:02",
                Url := "http://x/alpha/two", UpdatedAt := 2 }] ∧
      ¬ Contains "a_p" "alpha/one") ∧
    (nulKeyword ≠ "" ∧ WildcardFree nulKeyword ∧
      (GetPage .ok alphaBeta { Keyword := nulKeyword, Skip := 0, Limit := 0 }).1 =
        some [{ Repository := "alpha/one", Digest := "sha256:01",
                Url := "http://x/alpha/one", UpdatedAt := 1 },
              { Repository := "alpha/two", Digest := "sha256:02",
                Url := "http://x/alpha/two", UpdatedAt := 2 },
              { Repository := "beta/one", Digest := "sha256:03",
                Url := "http://x/beta/one", UpdatedAt := 3 }] ∧
      ¬ ContainsUpToCase nulKeyword "beta/one") ∧
    (GetPage .ok
        [{ id := 1, repository := some "alpha/one", digest := none,
           url := some "http://x/alpha/one", updated_at := some 1 }]
        { Keyword := "alpha", Skip := 0, Limit := 1 } = (some [], none) ∧
      Contains "alpha" "alpha/one") ∧
    (GetPage .ok [rowOf 1 (String.mk ['x', Char.ofNat 0, 'a', 'l', 'p', 'h', 'a']) "d" "u" 1]
        { Keyword := "alpha", Skip := 0, Limit := 1 } = (some [], none) ∧
      Contains "alpha" (String.mk ['x', Char.ofNat 0, 'a', 'l', 'p', 'h', 'a'])) ∧
    (GetPage .ok [rowOf 1 longKeyword "d" "u" 1]
        { Keyword := longKeyword, Skip := 0, Limit := 1 } = (some [], none) ∧
      NulFree longKeyword ∧ Contains longKeyword longKeyword) := by
  refine ⟨by decide, by decide, by decide, by decide, by decide, ?_, ?_, List.infix_refl _⟩
  · exact GetPage_ok_of_long_run 49999 (by decide) _ 0 1
  · exact nulFree_run 49999

end Index

/-! ## Properties of the handlers -/

namespace strconv

/-- The three ways `ParseInt` ends: a syntax error with the value 0, a range
error with the nearest bound of `int`, or no error. -/
theorem signedOf_cases (neg : Bool) (r : Nat × Option NumError) :
    ((signedOf neg r).2 = some .ErrSyntax ∧ (signedOf neg r).1 = 0) ∨
    ((signedOf neg r).2 = some .ErrRange ∧
      ((signedOf neg r).1 = 2 ^ 63 - 1 ∨ (signedOf neg r).1 = -2 ^ 63)) ∨
    (signedOf neg r).2 = none := by
  obtain ⟨un, e⟩ := r
  rcases e with _ | _ | _
  · simp only [signedOf]
    split_ifs <;> simp [IntSize]
  · left; exact ⟨rfl, rfl⟩
  · simp only [signedOf]
    split_ifs <;> simp [IntSize]

theorem ParseInt_cases (s : List Char) :
    ((ParseInt s).2 = some .ErrSyntax ∧ (ParseInt s).1 = 0) ∨
    ((ParseInt s).2 = some .ErrRange ∧
      ((ParseInt s).1 = 2 ^ 63 - 1 ∨ (ParseInt s).1 = -2 ^ 63)) ∨
    (ParseInt s).2 = none := by
  cases s with
  | nil => left; exact ⟨rfl, rfl⟩
  | cons c rest => exact signedOf_cases _ _

/-- A syntax error of `ParseInt` comes with the value 0. -/
theorem ParseInt_syntax (s : List Char) (h : (ParseInt s).2 = some .ErrSyntax) :
    (ParseInt s).1 = 0 := by
  rcases ParseInt_cases s with h1 | h1 | h1
  · exact h1.2
  · rw [h1.1] at h; cases h
  · rw [h1] at h; cases h

end strconv

namespace indexHandler

theorem queryArgs_Skip (form : Values) :
    (queryArgs form).Skip = (strconv.Atoi (form.Get "skip")).1 := rfl

theorem queryArgs_Limit (form : Values) :
    (queryArgs form).Limit = (strconv.Atoi (form.Get "limit")).1 := rfl

theorem Get_absent (form : Values) (key : String) (h : form.lookup key = none) :
    form.Get key = "" := by
  simp [Values.Get, h]

end indexHandler

namespace http

theorem Error_status (w : ResponseWriter) (error : String) (code : Nat) :
    (Error w error code).status = w.status ++ [code] := rfl

theorem Error_body (w : ResponseWriter) (error : String) (code : Nat) :
    (Error w error code).body = w.body ++ (error ++ "\n") := rfl

end http

/-! ## The claims on the handlers -/

namespace indexHandler

/-- C10 (status of a PATCH request).  For every PATCH request the handler calls
`WriteHeader` once.  The status is 400 if and only if the body fails to
decode, and then the body written is the decoder's message and the Status
Updater is not called.  Otherwise the Status Updater is called once, with the
values the decoded body has at `repo`, `tag` and `status`, and the status is
204 with nothing written when it returns nil, 404 when it returns
`sql.ErrNoRows` (an error that the generic test would also catch), and 500
for every other error. -/
theorem SetTagStatus_status (Decode : String → Except Index.Error (String → Option String))
    (Updater : String → String → String → Option Index.Error)
    (w : ResponseWriter) (body : String) :
    (∃ code, (SetTagStatus Decode Updater w body).1.status = w.status ++ [code]) ∧
    ((SetTagStatus Decode Updater w body).1.status = w.status ++ [400] ↔
      ∃ err, Decode body = .error err) ∧
    (∀ err, Decode body = .error err →
      (SetTagStatus Decode Updater w body).1.status = w.status ++ [400] ∧
      (SetTagStatus Decode Updater w body).1.body = w.body ++ (err.Error ++ "\n") ∧
      (SetTagStatus Decode Updater w body).2 = []) ∧
    (∀ req, Decode body = .ok req →
      (SetTagStatus Decode Updater w body).2 =
        [((req "repo").getD "", (req "tag").getD "", (req "status").getD "")] ∧
      (Updater ((req "repo").getD "") ((req "tag").getD "") ((req "status").getD "") = none →
        (SetTagStatus Decode Updater w body).1.status = w.status ++ [204] ∧
        (SetTagStatus Decode Updater w body).1.body = w.body) ∧
      (Updater ((req "repo").getD "") ((req "tag").getD "") ((req "status").getD "") =
          some .ErrNoRows →
        (SetTagStatus Decode Updater w body).1.status = w.status ++ [404]) ∧
      (∀ err,
        Updater ((req "repo").getD "") ((req "tag").getD "") ((req "status").getD "") =
          some err →
        err ≠ .ErrNoRows →
        (SetTagStatus Decode Updater w body).1.status = w.status ++ [500])) := by
  cases hD : Decode body with
  | error err =>
    simp [SetTagStatus, hD, http.Error_status, http.Error_body]
  | ok req =>
    cases hU : Updater ((req "repo").getD "") ((req "tag").getD "") ((req "status").getD "") with
    | none =>
      simp [SetTagStatus, hD, hU, ResponseWriter.WriteHeader]
    | some err =>
      by_cases he : err = Index.Error.ErrNoRows
      · simp [SetTagStatus, hD, hU, he, http.Error_status]
      · simp [SetTagStatus, hD, hU, he, http.Error_status]

/-- Witness of C10: a decoder that rejects the empty body, and an updater that
knows the tag `r1:v1` only and fails on the status `boom`. -/
theorem SetTagStatus_status_witness :
    (SetTagStatus
        (fun body => if body = "" then .error (.other "EOF") else
          .ok (fun key => if key = "repo" then some "r1" else if key = "tag" then some body
            else none))
        (fun repo tag status => if status = "boom" then some (.other "locked")
          else if repo = "r1" ∧ tag = "v1" then none else some .ErrNoRows)
        ResponseWriter.new "").1.status = [400] ∧
    (SetTagStatus
        (fun body => if body = "" then .error (.other "EOF") else
          .ok (fun key => if key = "repo" then some "r1" else if key = "tag" then some body
            else none))
        (fun repo tag status => if status = "boom" then some (.other "locked")
          else if repo = "r1" ∧ tag = "v1" then none else some .ErrNoRows)
        ResponseWriter.new "v2").1.status = [404] :=
  ⟨((SetTagStatus_status _ _ ResponseWriter.new "").2.2.1 (.other "EOF") rfl).1,
   ((SetTagStatus_status _ _ ResponseWriter.new "v2").2.2.2 _ rfl).2.2.1 (by decide)⟩

/-- C9, as the code has it.  For every GET request: a `skip` or `limit` that is
absent, or that `strconv.Atoi` rejects with a syntax error (as it does the
empty string and `abc`), is passed on as 0, so that the offset is 0 and the
page size 20; and whatever the two values are, the handler pushes no error
when the driver executes the statement and the encoder encodes the page. -/
theorem queryArgs_defaults (form : Values) :
    (form.lookup "skip" = none ∨ (strconv.Atoi (form.Get "skip")).2 = some .ErrSyntax →
      (queryArgs form).Skip = 0 ∧ (queryArgs form).prepare.Skip = 0) ∧
    (form.lookup "limit" = none ∨ (strconv.Atoi (form.Get "limit")).2 = some .ErrSyntax →
      (queryArgs form).Limit = 0 ∧ (queryArgs form).prepare.Limit = 20) ∧
    (∀ (encode : List Index.Record → Except Index.Error String) (t : Index.Table)
        (w : ResponseWriter), (∀ page, ∃ bytes, encode page = .ok bytes) →
      (GetPage encode .ok t w form).2 = []) := by
  have hsyntax : ∀ key, form.lookup key = none ∨
      (strconv.Atoi (form.Get key)).2 = some .ErrSyntax → (strconv.Atoi (form.Get key)).1 = 0 := by
    intro key h
    rcases h with h | h
    · rw [Get_absent form key h]; rfl
    · exact strconv.ParseInt_syntax _ h
  refine ⟨fun h => ?_, fun h => ?_, fun encode t w henc => ?_⟩
  · have h0 : (queryArgs form).Skip = 0 := hsyntax "skip" h
    exact ⟨h0, by rw [Index.prepare_Skip, h0]; rfl⟩
  · have h0 : (queryArgs form).Limit = 0 := hsyntax "limit" h
    exact ⟨h0, by rw [Index.prepare_Limit, h0]; rfl⟩
  · obtain ⟨bytes, hb⟩ := henc
      (((Index.sqlSelect t (Index.buildQuery (queryArgs form))).filterMap Index.scan))
    simp [GetPage, Index.GetPage, hb]

/-- Witness of C9: `skip=abc` and no `limit`. -/
theorem queryArgs_defaults_witness :
    ((queryArgs [("skip", ["abc"])]).Skip = 0 ∧ (queryArgs [("skip", ["abc"])]).prepare.Skip = 0) ∧
    ((queryArgs [("skip", ["abc"])]).Limit = 0 ∧
      (queryArgs [("skip", ["abc"])]).prepare.Limit = 20) ∧
    (GetPage (fun _ => .ok "[]") .ok [] ResponseWriter.new [("skip", ["abc"])]).2 = [] :=
  ⟨(queryArgs_defaults [("skip", ["abc"])]).1 (Or.inr (by decide)),
   (queryArgs_defaults [("skip", ["abc"])]).2.1 (Or.inl (by decide)),
   (queryArgs_defaults [("skip", ["abc"])]).2.2 (fun _ => .ok "[]") [] ResponseWriter.new
     (fun _ => ⟨_, rfl⟩)⟩

/-- Counterexample to C9: `9223372036854775808` does not parse as an `int`, yet
as `skip` and as `limit` it is passed on as 9223372036854775807, not as 0, and
the offset and the page size are 9223372036854775807, not 0 and 20. -/
theorem queryArgs_out_of_range :
    (strconv.Atoi "9223372036854775808").2 = some .ErrRange ∧
    queryArgs [("skip", ["9223372036854775808"]), ("limit", ["9223372036854775808"])] =
      { Keyword := "", Skip := 9223372036854775807, Limit := 9223372036854775807 } ∧
    (queryArgs [("skip", ["9223372036854775808"]),
        ("limit", ["9223372036854775808"])]).prepare.Skip ≠ 0 ∧
    (queryArgs [("skip", ["9223372036854775808"]),
        ("limit", ["9223372036854775808"])]).prepare.Limit ≠ 20 := by
  decide

end indexHandler
